import Mathlib

/-!
Verification development for the stark-agents execution engine.

The definitions below are a shallow embedding of the repository's execution
loop and tool-dispatch engine:

* `src/stark/tool.py`    — `Tool.__call`, `Tool.tool_calls` (tool dispatch)
* `src/stark/function.py`— `FunctionToolManager`
* `src/stark/agent.py`   — `Agent`, `SubAgentManager`
* `src/stark/runner.py`  — `Runner.__set_agent_instructions`,
  `Runner.__execute`, `Runner.run_async`, `Runner.__get_model_stream`,
  `Runner.__stream_with_events`, `Runner.run_stream`

Python dicts holding message records are modelled by the `Msg` structure,
Python `None` by `Option`, raising by `Except Exc`, and the mutable
`self.sub_agents_response` dict and the mutable transcript list by explicit
state passing.  The model-completion client and the remote (MCP) transport
are external collaborators and enter only through their interfaces.
-/

namespace Stark

/-- Value of a Python expression that is either a string already or an
arbitrary object carried around by its `str()` image. -/
inductive PyObj
| str (s : String)
| obj (reprStr : String)
deriving DecidableEq, Repr

/-- Python `str(x)`: a string is returned as is, any other object by its
`str()` image. -/
def pyStr : PyObj → String
| PyObj.str s => s
| PyObj.obj r => r

/-- Parsed tool-call arguments (the dict produced by `json.loads`). -/
abbrev Args := List (String × PyObj)

/-- Embeds the `function` member of a model tool-call record:
`\x7b"name": ..., "arguments": ...\x7d` with the raw textual arguments. -/
structure ToolCallFunction where
  name : String
  arguments : String
deriving DecidableEq, Repr

/-- Embeds a model tool-call record (`ai_tool_call` in `tool.py`). -/
structure ToolCall where
  id : String
  function : ToolCallFunction
deriving DecidableEq, Repr

/-- Embeds a transcript message dict.  `role`, `content` and `tool_call_id`
model the dict keys (`Option.none` = key absent or value `None`), and
`tool_calls` defaults to the empty list when the key is absent. -/
structure Msg where
  role : Option String := Option.none
  content : Option PyObj := Option.none
  tool_calls : List ToolCall := []
  tool_call_id : Option String := Option.none
deriving DecidableEq, Repr

/-- Embeds `ToolCallResponse` from `src/stark/type.py`.  The `content`
field is `Any` in the source; by the end of `Tool.__call` it is either a
string or Python `None`, modelled by `Option String`. -/
structure ToolCallResponse where
  role : String
  tool_call_id : String
  content : Option String
deriving DecidableEq, Repr

/-- Embeds `IterationData` from `src/stark/type.py`. -/
structure IterationData where
  iterations : Nat
  has_tool_calls : Bool
deriving DecidableEq, Repr

/-- Embeds `RunResponse` from `src/stark/type.py`; `sub_agents_response`
is the dict modelled as an association list in insertion order. -/
structure RunResponse where
  result : List Msg
  iterations : Nat
  sub_agent_result : List Msg := []
  sub_agents_response : List (String × List Msg) := []
  max_iterations_reached : Bool := false
deriving DecidableEq, Repr

/-- Python exceptions as far as the engine distinguishes them.
`generatorExit` and `cancelledError` derive from `BaseException` only, so
an `except Exception` clause does not catch them. -/
inductive Exc
| err (msg : String)
| indexError
| keyError
| generatorExit
| cancelledError
deriving DecidableEq, Repr

/-- Whether an `except Exception` clause catches this exception.
`GeneratorExit` and `asyncio.CancelledError` subclass `BaseException`
directly, not `Exception`. -/
def Exc.catchable : Exc → Bool
| Exc.generatorExit => false
| Exc.cancelledError => false
| _ => true

/-- Dict lookup on an association list (first matching key). -/
def lookupStr {α : Type} : List (String × α) → String → Option α
| [], _ => Option.none
| p :: rest, k => if p.1 = k then some p.2 else lookupStr rest k

/-- Dict update (`d.update(\x7bk: v\x7d)`): replace the value at an existing
key in place, otherwise append the new binding. -/
def updateStr {α : Type} : List (String × α) → String → α → List (String × α)
| [], k, v => [(k, v)]
| p :: rest, k, v => if p.1 = k then (k, v) :: rest else p :: updateStr rest k v

/-- One content item of a remote tool reply: an item with a `.text`
attribute (whose value may be `None`), one with a `.data` attribute
(carried by its `str()` image), or anything else (carried by its `str()`
image). -/
inductive McpContent
| text (t : Option String)
| data (d : String)
| other (s : String)
deriving DecidableEq, Repr

/-- Reply of a remote tool call: an object with a `content` list. -/
structure McpCallResult where
  content : List McpContent
deriving DecidableEq, Repr

/-- Outcome of `MCPManager.call_tool`: a reply, or a raised transport
exception carried by its message. -/
inductive McpOutcome
| ok (r : McpCallResult)
| raised (msg : String)
deriving DecidableEq, Repr

/-- Interface of the remote tool session manager (`MCPManager`, imported
in `tool.py` from the `.mcp` module, which is not part of the sources
here).  Modelled from the spec: the manager owns the remote sessions,
answers `is_mcp_tool` name queries and routes `call_tool`; per spec §4.4
its `close_all_sessions` never raises, so session teardown is modelled as
a plain counted action with no exception outcome. -/
structure MCPManager where
  is_mcp_tool : String → Bool
  call_tool : String → Args → McpOutcome

/-- Embeds `FunctionToolManager` from `src/stark/function.py`: the
`func_name_map` dict, with each entry collapsed to its invoker (the source
distinguishes plain functions from class-instance methods and wraps
coroutines in `asyncio.run`; all three end in one call of the mapped
callable, which may itself raise). -/
structure FunctionToolManager where
  func_name_map : List (String × (Args → Except Exc PyObj))

/-- Embeds `FunctionToolManager.is_function_tool`. -/
def FunctionToolManager.is_function_tool (f : FunctionToolManager) (tool_name : String) : Bool :=
  (lookupStr f.func_name_map tool_name).isSome

/-- Embeds `FunctionToolManager.call_tool` (`function.py` lines 66-82):
look the name up in `func_name_map` and invoke; an unmapped name yields
the fixed fallback string. -/
def FunctionToolManager.call_tool (f : FunctionToolManager) (tool_name : String)
    (arguments : Args) : Except Exc PyObj :=
  match lookupStr f.func_name_map tool_name with
  | some fn => fn arguments
  | Option.none => Except.ok (PyObj.str "Tool call didn\x27t happen")

/-- Embeds the `Agent` configuration from `src/stark/agent.py` (the fields
the execution loop reads). -/
structure Agent where
  name : String
  instructions : String
  model : String := ""
  description : String := ""
  max_iterations : Nat := 10
deriving DecidableEq, Repr

/-- Embeds `SubAgentManager` from `src/stark/agent.py`: the
`agent_name_map` dict from prefixed tool name to child agent. -/
structure SubAgentManager where
  agent_name_map : List (String × Agent)
deriving DecidableEq, Repr

/-- Embeds `SubAgentManager.is_agent`. -/
def SubAgentManager.is_agent (s : SubAgentManager) (name : String) : Bool :=
  (lookupStr s.agent_name_map name).isSome

/-- Embeds `SubAgentManager.execute` (`agent.py` lines 106-110):
`input = list(input)` takes a copy, `input.pop()` removes the copy's last
element (raising `IndexError` on an empty list), and the child is run on
the trimmed copy.  The second component of the result is the caller's own
list as observable after the call; the copy makes it the unchanged
`input`. -/
def SubAgentManager.execute (s : SubAgentManager)
    (run_sub_agent : Agent → List Msg → Except Exc RunResponse)
    (agent_name : String) (input : List Msg) : Except Exc (RunResponse × List Msg) :=
  match lookupStr s.agent_name_map agent_name with
  | Option.none => Except.error Exc.keyError
  | some agent =>
      if input.isEmpty then Except.error Exc.indexError
      else (run_sub_agent agent input.dropLast).map (fun rr => (rr, input))

/-- External collaborators of tool dispatch: `json.loads` on the raw
arguments (`Option.none` = `JSONDecodeError`), the recursive
`Runner.run_sub_agent` entry point, and Python's builtin `str()` on a
message dict. -/
structure CallCtx where
  parse : String → Option Args
  run_sub_agent : Agent → List Msg → Except Exc RunResponse
  str_of_msg : Msg → String

/-- Embeds the state of the `Tool` class from `src/stark/tool.py`: the
three optional registries and the accumulated `sub_agents_response`
dict. -/
structure Tool where
  mcp_manager : Option MCPManager := Option.none
  ft_manager : Option FunctionToolManager := Option.none
  sub_agent_manager : Option SubAgentManager := Option.none
  sub_agents_response : List (String × List Msg) := []

/-- Boolean of `self.mcp_manager and self.mcp_manager.is_mcp_tool(name)`. -/
def Tool.resolvesMcp (t : Tool) (name : String) : Bool :=
  match t.mcp_manager with
  | some m => m.is_mcp_tool name
  | Option.none => false

/-- Boolean of `self.ft_manager and self.ft_manager.is_function_tool(name)`. -/
def Tool.resolvesFt (t : Tool) (name : String) : Bool :=
  match t.ft_manager with
  | some f => f.is_function_tool name
  | Option.none => false

/-- Boolean of `self.sub_agent_manager and self.sub_agent_manager.is_agent(name)`. -/
def Tool.resolvesSub (t : Tool) (name : String) : Bool :=
  match t.sub_agent_manager with
  | some s => s.is_agent name
  | Option.none => false

/-- Which registry actually executed a tool during one dispatch, in
execution order; the sub-agent effect records the transcript the child
was run on. -/
inductive Effect
| remote
| functionTool
| subAgent (child_input : List Msg)
deriving DecidableEq, Repr

/-- Result of one dispatch: the returned `ToolCallResponse`, the `Tool`
state after it (its `sub_agents_response` dict may have grown), the
caller's transcript list as observable after the call, and the execution
record. -/
structure CallOut where
  resp : ToolCallResponse
  tool : Tool
  messages : List Msg
  effects : List Effect

/-- Text of `json.dumps(\x7b"error": msg\x7d)`. -/
def jsonErrorDump (msg : String) : String :=
  "\x7b\"error\": \"" ++ msg ++ "\"\x7d"

/-- Fixed placeholder for an empty remote tool result. -/
def emptyPlaceholder : String := "Tool executed successfully (no output returned)"

/-- Boolean of Python `not s.strip()`: the string holds no non-whitespace
character. -/
def pyBlank (s : String) : Bool := s.data.all (fun c => c.isWhitespace)

/-- Error text of the remote/function name collision
(`tool.py` line 157). -/
def collisionText (tool_name : String) : String :=
  "Tool name (" ++ tool_name ++
    ") didn\x27t execute because same tool exist in one of the MCP servers and in one of the function tools"

/-- Embeds the remote branch of `Tool.__call` (`tool.py` lines 164-210):
call through the manager inside `try`, normalize the first content item to
text, convert a transport exception or a `None` text to a
`json.dumps`-ed error payload, and replace an empty or blank result by the
fixed placeholder. -/
def mcpToolResult (m : MCPManager) (tool_name : String) (arguments : Args) : String :=
  match m.call_tool tool_name arguments with
  | McpOutcome.raised e => jsonErrorDump ("Tool error: " ++ e)
  | McpOutcome.ok r =>
      let tr : Option String :=
        match r.content with
        | [] => some ""
        | c :: _ =>
            match c with
            | McpContent.text t => t
            | McpContent.data d => some d
            | McpContent.other s => some s
      match tr with
      | Option.none => jsonErrorDump ("Tool " ++ tool_name ++ " not found")
      | some s => if pyBlank s then emptyPlaceholder else s

/-- Python `name.removeprefix("sub_agent__")`: when the first eleven
characters are `sub_agent__` they are dropped, otherwise the name is
returned unchanged. -/
def stripSubAgentName (name : String) : String :=
  if name.data.take 11 = ("sub_agent__" : String).data then String.mk (name.data.drop 11)
  else name

/-- Embeds `tool.py` lines 217-229: the textual result taken from a
sub-agent's `RunResponse` — the `content` value of the last entry of its
`sub_agent_result` (the whole entry's `str()` image when it has no
`content` key), or the fixed placeholder when the list is empty. -/
def subAgentResultContent (ctx : CallCtx) (rr : RunResponse) : String :=
  match rr.sub_agent_result.getLast? with
  | some last =>
      match last.content with
      | some v => pyStr v
      | Option.none => ctx.str_of_msg last
  | Option.none => "Sub-Agent executed successfully (no output returned)"

/-- Embeds the body of `Tool.__call` (`tool.py` lines 142-231) after
argument parsing: the remote/function collision check returns immediately;
otherwise the remote branch, the function branch and the sub-agent branch
run in that order, each matching branch overwriting `tool_result`; the
function branch and the sub-agent run propagate their own exceptions. -/
def Tool.callParsed (ctx : CallCtx) (t : Tool) (tool_name : String) (tool_call_id : String)
    (arguments : Args) (messages : List Msg) : Except Exc CallOut :=
  if t.resolvesMcp tool_name && t.resolvesFt tool_name then
    Except.ok ⟨⟨"tool", tool_call_id, some (collisionText tool_name)⟩, t, messages, []⟩
  else
    let step1 : Option String × List Effect :=
      match t.mcp_manager with
      | some m =>
          if m.is_mcp_tool tool_name then
            (some (mcpToolResult m tool_name arguments), [Effect.remote])
          else (Option.none, [])
      | Option.none => (Option.none, [])
    let step2 : Except Exc (Option String × List Effect) :=
      match t.ft_manager with
      | some f =>
          if f.is_function_tool tool_name then
            (f.call_tool tool_name arguments).map
              (fun v => (some (pyStr v), step1.2 ++ [Effect.functionTool]))
          else Except.ok step1
      | Option.none => Except.ok step1
    match step2 with
    | Except.error e => Except.error e
    | Except.ok r2 =>
        match t.sub_agent_manager with
        | some s =>
            if s.is_agent tool_name then
              match s.execute ctx.run_sub_agent tool_name messages with
              | Except.error e => Except.error e
              | Except.ok (rr, messages2) =>
                  let newMap := updateStr t.sub_agents_response
                    (stripSubAgentName tool_name) rr.sub_agent_result
                  Except.ok ⟨⟨"tool", tool_call_id, some (subAgentResultContent ctx rr)⟩,
                    { t with sub_agents_response := newMap },
                    messages2, r2.2 ++ [Effect.subAgent messages.dropLast]⟩
            else Except.ok ⟨⟨"tool", tool_call_id, r2.1⟩, t, messages, r2.2⟩
        | Option.none => Except.ok ⟨⟨"tool", tool_call_id, r2.1⟩, t, messages, r2.2⟩

/-- Embeds `Tool.__call` entry (`tool.py` lines 146-154): read name and id
from the request, parse the raw arguments with the empty dict as the
fallback on a parse failure, then run the dispatch body. -/
def Tool.call (ctx : CallCtx) (t : Tool) (ai_tool_call : ToolCall)
    (messages : List Msg) : Except Exc CallOut :=
  Tool.callParsed ctx t ai_tool_call.function.name ai_tool_call.id
    ((ctx.parse ai_tool_call.function.arguments).getD []) messages

/-- Embeds `Tool.tool_calls` (`tool.py` lines 133-140): dispatch each
request in order, collecting the responses and threading the `Tool` state
and the transcript. -/
def Tool.tool_calls (ctx : CallCtx) (t : Tool) (ai_tool_calls : List ToolCall)
    (messages : List Msg) : Except Exc (List ToolCallResponse × Tool × List Msg) :=
  match ai_tool_calls with
  | [] => Except.ok ([], t, messages)
  | tc :: rest =>
      match Tool.call ctx t tc messages with
      | Except.error e => Except.error e
      | Except.ok out =>
          (Tool.tool_calls ctx out.tool rest out.messages).map
            (fun r => (out.resp :: r.1, r.2.1, r.2.2))

/-- The system record built from the agent's instructions. -/
def systemPromptMsg (system_prompt : String) : Msg :=
  { role := some "system", content := some (PyObj.str system_prompt) }

/-- Boolean of `messages[0].get("role") == "system"` (`False` on an empty
list; a missing role key counts as not system). -/
def firstRoleIsSystem (messages : List Msg) : Bool :=
  match messages with
  | m :: _ => m.role == some "system"
  | [] => false

/-- Embeds `Runner.__set_agent_instructions` (`runner.py` lines 71-80):
an empty (falsy) prompt leaves the transcript unchanged; otherwise the
system record is inserted at index 0 when the transcript is empty or holds
exactly one non-system message, and appended at the end in every other
case. -/
def set_agent_instructions (messages : List Msg) (system_prompt : String) : List Msg :=
  if system_prompt = "" then messages
  else if messages.isEmpty || (messages.length == 1 && !firstRoleIsSystem messages) then
    systemPromptMsg system_prompt :: messages
  else
    messages ++ [systemPromptMsg system_prompt]

/-- Model reply of one non-streaming iteration as far as
`Runner.__parse_model_response` reads it: the concatenated content (empty
when absent) and the extracted tool-call list. -/
structure RawModelMessage where
  content : String
  tool_calls : List ToolCall
deriving DecidableEq, Repr

/-- Embeds the dict built by `Runner.__parse_model_response`
(`runner.py` lines 206-235): role `assistant`, the `content` key kept only
when non-empty, the `tool_calls` key kept only when non-empty. -/
def parse_model_response (res : RawModelMessage) : Msg :=
  { role := some "assistant",
    content := if res.content = "" then Option.none else some (PyObj.str res.content),
    tool_calls := res.tool_calls }

/-- Transcript record of `tool_response.model_dump()` as appended to
`run_response.result`. -/
def toolResponseMsg (r : ToolCallResponse) : Msg :=
  { role := some r.role, content := r.content.map PyObj.str,
    tool_call_id := some r.tool_call_id }

/-- Embeds the `while` loop of `Runner.__execute` (`runner.py` lines
244-275) by structural recursion on the remaining pass budget: the caller
maintains `fuel = max_iterations - rr.iterations`, so `fuel = 0` is
exactly the loop guard `iterations < max_iterations` turning false, where
the budget-exhaustion flag is set.  The model collaborator appears as the
oracle giving the parsed reply of the call made at each iteration (index =
iterations before the increment), `Except.error` meaning the model client
raised. -/
def executeFuel (ctx : CallCtx) (oracle : Nat → Except Exc RawModelMessage)
    (max_iterations : Nat) :
    Nat → Tool → Bool → RunResponse → Except Exc RunResponse
| 0, t, _, rr =>
    Except.ok { rr with sub_agents_response := t.sub_agents_response,
                        max_iterations_reached := true }
| Nat.succ fuel, t, is_sub_agent, rr =>
    match oracle rr.iterations with
    | Except.error e => Except.error e
    | Except.ok raw =>
        let response := parse_model_response raw
        let result1 := rr.result ++ [response]
        let sar1 := if is_sub_agent then rr.sub_agent_result ++ [response]
                    else rr.sub_agent_result
        if response.tool_calls.isEmpty then
          Except.ok { rr with result := result1, iterations := rr.iterations + 1,
                              sub_agent_result := sar1,
                              sub_agents_response := t.sub_agents_response }
        else
          match Tool.tool_calls ctx t response.tool_calls result1 with
          | Except.error e => Except.error e
          | Except.ok (resps, t2, msgs2) =>
              executeFuel ctx oracle max_iterations fuel t2 is_sub_agent
                { rr with result := msgs2 ++ resps.map toolResponseMsg,
                          iterations := rr.iterations + 1,
                          sub_agent_result := sar1 }

namespace Runner

/-- Embeds `Runner.__execute` (`runner.py` lines 237-275): inject the
instructions, seed `sub_agent_result` with the last input record for a
sub-agent run with instructions, then run the loop from iteration 0 with
the full pass budget. -/
def execute (ctx : CallCtx) (oracle : Nat → Except Exc RawModelMessage)
    (agent : Agent) (t : Tool) (is_sub_agent : Bool)
    (input : List Msg) : Except Exc RunResponse :=
  let input1 := set_agent_instructions input agent.instructions
  let sar0 : List Msg :=
    if is_sub_agent && !(agent.instructions == "") then
      match input1.getLast? with
      | some m => [m]
      | Option.none => []
    else []
  executeFuel ctx oracle agent.max_iterations agent.max_iterations t is_sub_agent
    { result := input1, iterations := 0, sub_agent_result := sar0 }

/-- Embeds `Runner.run_async` (`runner.py` lines 277-289) together with a
count of `close_mcp_manager` invocations: on normal return the teardown
runs once after the loop; the `except Exception` clause also runs it once
before re-raising, but only for exceptions it actually catches. -/
def run_async (ctx : CallCtx) (oracle : Nat → Except Exc RawModelMessage)
    (agent : Agent) (t : Tool) (is_sub_agent : Bool)
    (input : List Msg) : Except Exc RunResponse × Nat :=
  match execute ctx oracle agent t is_sub_agent input with
  | Except.ok r => (Except.ok r, 1)
  | Except.error e => (Except.error e, if e.catchable then 1 else 0)

end Runner

/-- Embeds the `function` member of a streamed tool-call delta
(`name`/`arguments` attributes may be absent). -/
structure DeltaFunction where
  name : Option String
  arguments : Option String
deriving DecidableEq, Repr

/-- Embeds one streamed tool-call delta. -/
structure DeltaToolCall where
  index : Nat
  id : String
  function : DeltaFunction
deriving DecidableEq, Repr

/-- Embeds one streamed chunk's delta as far as
`Runner.__get_model_stream` reads it: an optional content piece and the
tool-call deltas (a chunk without choices is `⟨Option.none, []⟩`). -/
structure Chunk where
  content : Option String
  tool_calls : List DeltaToolCall
deriving DecidableEq, Repr

/-- Embeds the `ModelSreamResponse` accumulator from
`src/stark/type.py`. -/
structure ModelSreamResponse where
  content : String
  tool_calls : List ToolCall
  message : Msg
deriving DecidableEq, Repr

/-- Embeds the events of `RunnerStream` (`runner.py` lines 10-59) as a
tagged union; `MODEL_STREAM_COMPLETED` is internal to the stream helper
and captured before emission, so it never appears here. -/
inductive Event
| iteration_start (n : Nat)
| content_chunk (s : String)
| tool_calls_update (tcs : List ToolCall)
| tool_response (r : ToolCallResponse)
| iteration_end (d : IterationData)
| agent_run_end (r : RunResponse)
deriving DecidableEq, Repr

/-- List update at an index (`xs[i] = f(xs[i])`; out of range leaves the
list unchanged, which the accumulation below never relies on). -/
def modifyAt {α : Type} : List α → Nat → (α → α) → List α
| [], _, _ => []
| x :: xs, 0, f => f x :: xs
| x :: xs, Nat.succ n, f => x :: modifyAt xs n f

/-- Embeds the tool-call delta accumulation of `Runner.__get_model_stream`
(`runner.py` lines 93-112): an index at or past the current length appends
a fresh record (absent attributes becoming empty strings); otherwise the
delta's arguments, when present, are concatenated onto the indexed
record. -/
def applyDelta (acc : List ToolCall) (d : DeltaToolCall) : List ToolCall :=
  if acc.length ≤ d.index then
    acc ++ [⟨d.id, ⟨d.function.name.getD "", d.function.arguments.getD ""⟩⟩]
  else
    match d.function.arguments with
    | some a => modifyAt acc d.index
        (fun tc => ⟨tc.id, ⟨tc.function.name, tc.function.arguments ++ a⟩⟩)
    | Option.none => acc

/-- Embeds the chunk loop of `Runner.__get_model_stream` (`runner.py`
lines 85-115): per chunk, a truthy content piece is accumulated and
emitted as a content-chunk event, and a non-empty delta list is folded
into the accumulated calls, after which a tool-calls event carrying the
cumulative list is emitted. -/
def streamChunksGo : List Chunk → String → List ToolCall →
    List Event × String × List ToolCall
| [], c, tcs => ([], c, tcs)
| ch :: rest, c, tcs =>
    let p1 : List Event × String :=
      match ch.content with
      | some s => if s = "" then ([], c) else ([Event.content_chunk s], c ++ s)
      | Option.none => ([], c)
    let p2 : List Event × List ToolCall :=
      if ch.tool_calls.isEmpty then ([], tcs)
      else
        let tcs2 := ch.tool_calls.foldl applyDelta tcs
        ([Event.tool_calls_update tcs2], tcs2)
    let p3 := streamChunksGo rest p1.2 p2.2
    (p1.1 ++ p2.1 ++ p3.1, p3.2)

/-- Embeds `Runner.__get_model_stream` (`runner.py` lines 82-126): the
events emitted while consuming one model stream, and the final complete
response whose message keeps the `content` key only when non-empty and
the `tool_calls` key only when non-empty. -/
def get_model_stream (chunks : List Chunk) : List Event × ModelSreamResponse :=
  let p := streamChunksGo chunks "" []
  (p.1, ⟨p.2.1, p.2.2,
    { role := some "assistant",
      content := if p.2.1 = "" then Option.none else some (PyObj.str p.2.1),
      tool_calls := p.2.2 }⟩)

/-- Observable step of the streaming generator: an emitted event, or one
invocation of `self.tool.close_mcp_manager()`. -/
inductive StreamAction
| emit (e : Event)
| closeAll
deriving DecidableEq, Repr

/-- Embeds the `while` loop of `Runner.__stream_with_events` (`runner.py`
lines 133-194) by structural recursion on the remaining pass budget
(`fuel = max_iterations - rr.iterations`, so `fuel = 0` is the loop guard
turning false).  Per pass: emit the iteration-start event, consume the
model stream (the oracle giving the chunk list of the call at each
iteration, `Except.error` meaning the model client raised), append the
assembled message, and either finish — iteration-end, session teardown,
run-end — when it carries no tool calls, or dispatch the calls, emit one
tool-response event per response, emit iteration-end and continue.  An
exhausted budget tears sessions down, flags the response and emits the
run-end event.  The second component is the exception the generator
raised, if any. -/
def streamFuel (ctx : CallCtx) (soracle : Nat → Except Exc (List Chunk))
    (max_iterations : Nat) :
    Nat → Tool → RunResponse → List StreamAction × Option Exc
| 0, t, rr =>
    ([StreamAction.closeAll,
      StreamAction.emit (Event.agent_run_end
        { rr with sub_agents_response := t.sub_agents_response,
                  max_iterations_reached := true })],
     Option.none)
| Nat.succ fuel, t, rr =>
    let its := rr.iterations + 1
    let a0 := [StreamAction.emit (Event.iteration_start its)]
    match soracle rr.iterations with
    | Except.error e => (a0, some e)
    | Except.ok chunks =>
        let p := get_model_stream chunks
        let a1 := a0 ++ p.1.map StreamAction.emit
        let result1 := rr.result ++ [p.2.message]
        let idata : IterationData := ⟨its, !p.2.tool_calls.isEmpty⟩
        if p.2.tool_calls.isEmpty then
          (a1 ++ [StreamAction.emit (Event.iteration_end idata),
                  StreamAction.closeAll,
                  StreamAction.emit (Event.agent_run_end
                    { rr with result := result1, iterations := its,
                              sub_agents_response := t.sub_agents_response })],
           Option.none)
        else
          match Tool.tool_calls ctx t p.2.tool_calls result1 with
          | Except.error e => (a1, some e)
          | Except.ok (resps, t2, msgs2) =>
              let a2 := a1 ++ resps.map (fun r => StreamAction.emit (Event.tool_response r))
                           ++ [StreamAction.emit (Event.iteration_end idata)]
              let p3 := streamFuel ctx soracle max_iterations fuel t2
                { rr with result := msgs2 ++ resps.map toolResponseMsg, iterations := its }
              (a2 ++ p3.1, p3.2)

namespace Runner

/-- Embeds `Runner.__stream_with_events` (`runner.py` lines 128-194):
inject the instructions and run the streaming loop from iteration 0 with
the full pass budget. -/
def stream_with_events (ctx : CallCtx) (soracle : Nat → Except Exc (List Chunk))
    (agent : Agent) (t : Tool) (input : List Msg) : List StreamAction × Option Exc :=
  let input1 := set_agent_instructions input agent.instructions
  streamFuel ctx soracle agent.max_iterations agent.max_iterations t
    { result := input1, iterations := 0 }

/-- Embeds `Runner.run_stream` (`runner.py` lines 196-204) for a consumer
that drains the whole stream: the `except Exception` clause runs the
session teardown once more before re-raising, but only for exceptions it
actually catches. -/
def run_stream (ctx : CallCtx) (soracle : Nat → Except Exc (List Chunk))
    (agent : Agent) (t : Tool) (input : List Msg) : List StreamAction × Option Exc :=
  let p := stream_with_events ctx soracle agent t input
  match p.2 with
  | Option.none => p
  | some e => if e.catchable then (p.1 ++ [StreamAction.closeAll], some e) else p

end Runner

/-- Actions the generator actually performs when its consumer pulls `j`
events and then closes it: each pull runs the generator up to and
including its next emitted event; closing it afterwards throws
`GeneratorExit` at the suspended yield. -/
def pullFirst : List StreamAction → Nat → List StreamAction
| _, 0 => []
| [], Nat.succ _ => []
| StreamAction.closeAll :: rest, Nat.succ j =>
    StreamAction.closeAll :: pullFirst rest (Nat.succ j)
| StreamAction.emit e :: rest, Nat.succ j =>
    StreamAction.emit e :: pullFirst rest j

namespace Runner

/-- Embeds `Runner.run_stream` for a consumer that pulls `j` events and
then closes the stream (cancellation).  The `GeneratorExit` thrown into
the suspended generator is a `BaseException`, which the
`except Exception` clause of `run_stream` does not catch, so no further
teardown action follows the executed prefix. -/
def run_stream_cancelled (ctx : CallCtx) (soracle : Nat → Except Exc (List Chunk))
    (agent : Agent) (t : Tool) (input : List Msg) (j : Nat) : List StreamAction :=
  pullFirst (stream_with_events ctx soracle agent t input).1 j

end Runner

/-- Events of an action trace, in order. -/
def emitsOf (acts : List StreamAction) : List Event :=
  acts.filterMap (fun a =>
    match a with
    | StreamAction.emit e => some e
    | StreamAction.closeAll => Option.none)

/-- Number of session-teardown invocations in an action trace. -/
def closeCount (acts : List StreamAction) : Nat :=
  acts.countP (fun a =>
    match a with
    | StreamAction.closeAll => true
    | StreamAction.emit _ => false)

/-- Run-result payloads of the run-end events in an action trace. -/
def runEndEvents (acts : List StreamAction) : List RunResponse :=
  acts.filterMap (fun a =>
    match a with
    | StreamAction.emit (Event.agent_run_end r) => some r
    | _ => Option.none)

/-- Generic dispatch context for concrete runs: every arguments string
parses to the empty dict, sub-agent runs return the empty run result, and
`str()` of a message is a fixed placeholder. -/
def ctx0 : CallCtx :=
  ⟨fun _ => some [], fun _ _ => Except.ok ⟨[], 0, [], [], false⟩, fun _ => "message"⟩

/-- Tool state with no registry configured at all. -/
def t1none : Tool := {}

/-- Request whose name resolves to no registry. -/
def tc1 : ToolCall := ⟨"call_1", ⟨"ghost_tool", "\x7b\x7d"⟩⟩

/-- Function registry holding one tool that returns the empty string. -/
def f1 : FunctionToolManager := ⟨[("st___empty", fun _ => Except.ok (PyObj.str ""))]⟩

/-- Tool state with only the function registry `f1`. -/
def t1ft : Tool := { ft_manager := some f1 }

/-- Request for the empty-string function tool. -/
def tc1e : ToolCall := ⟨"call_2", ⟨"st___empty", "\x7b\x7d"⟩⟩

/-- Remote registry claiming every name (collision fixture). -/
def m6 : MCPManager := ⟨fun _ => true, fun _ _ => McpOutcome.ok ⟨[]⟩⟩

/-- Function registry holding a tool named `dup` (collision fixture). -/
def f6 : FunctionToolManager := ⟨[("dup", fun _ => Except.ok (PyObj.str "x"))]⟩

/-- Tool state where `dup` is both a remote and a function tool. -/
def t6 : Tool := { mcp_manager := some m6, ft_manager := some f6 }

/-- Request for the doubly-registered name `dup`. -/
def tc6 : ToolCall := ⟨"c6", ⟨"dup", "\x7b\x7d"⟩⟩

end Stark

namespace Stark

theorem lookupStr_updateStr_self {α : Type} (m : List (String × α)) (k : String) (v : α) :
    lookupStr (updateStr m k v) k = some v := by
  induction m with
  | nil => simp [updateStr, lookupStr]
  | cons p rest ih =>
      by_cases h : p.1 = k
      · simp [updateStr, h, lookupStr]
      · simp [updateStr, h, lookupStr, ih]

theorem lookupStr_updateStr_ne {α : Type} (m : List (String × α)) (k k2 : String) (v : α)
    (h : k2 ≠ k) : lookupStr (updateStr m k v) k2 = lookupStr m k2 := by
  have hk : k ≠ k2 := fun hh => h hh.symm
  induction m with
  | nil => simp [updateStr, lookupStr, hk]
  | cons p rest ih =>
      by_cases hp : p.1 = k
      · subst hp
        simp [updateStr, lookupStr, hk]
      · simp [updateStr, hp, lookupStr, ih]

theorem jsonErrorDump_ne_empty (msg : String) : jsonErrorDump msg ≠ "" := by
  intro h
  have h2 := congrArg String.length h
  rw [jsonErrorDump, String.length_append, String.length_append] at h2
  have h3 : ("\x7b\"error\": \"" : String).length = 11 := by decide
  have h4 : ("\"\x7d" : String).length = 2 := by decide
  have h5 : ("" : String).length = 0 := by decide
  rw [h3, h4, h5] at h2
  omega

theorem emptyPlaceholder_ne_empty : emptyPlaceholder ≠ "" := by decide

theorem mcpToolResult_ne_empty (m : MCPManager) (tool_name : String) (arguments : Args) :
    mcpToolResult m tool_name arguments ≠ "" := by
  have htr : pyBlank "" = true := by decide
  have hstep : ∀ s : String, (if pyBlank s then emptyPlaceholder else s) ≠ "" := by
    intro s
    by_cases ht : pyBlank s = true
    · simpa [ht] using emptyPlaceholder_ne_empty
    · rw [if_neg (by simpa using ht)]
      intro hs
      rw [hs] at ht
      exact ht htr
  unfold mcpToolResult
  cases hc : m.call_tool tool_name arguments with
  | raised e => exact jsonErrorDump_ne_empty _
  | ok r =>
      rcases r with ⟨content⟩
      rcases content with _ | ⟨c, rest⟩
      · exact hstep ""
      · rcases c with topt | d | s
        · rcases topt with _ | s
          · exact jsonErrorDump_ne_empty _
          · exact hstep s
        · exact hstep d
        · exact hstep s

/-- C3: with no instructions the injection step leaves the transcript
unchanged; with instructions it inserts the system record at index 0 when
the transcript is empty or holds exactly one non-system message, and in
every other case appends a fresh system record at the end. -/
theorem C3_instruction_injection (messages : List Msg) (system_prompt : String) :
    (system_prompt = "" → set_agent_instructions messages system_prompt = messages) ∧
    (system_prompt ≠ "" →
      (messages = [] ∨ (messages.length = 1 ∧ firstRoleIsSystem messages = false)) →
      set_agent_instructions messages system_prompt =
        systemPromptMsg system_prompt :: messages) ∧
    (system_prompt ≠ "" → messages ≠ [] →
      ¬(messages.length = 1 ∧ firstRoleIsSystem messages = false) →
      set_agent_instructions messages system_prompt =
        messages ++ [systemPromptMsg system_prompt]) := by
  refine ⟨fun h => by simp [set_agent_instructions, h], ?_, ?_⟩
  · intro h hcase
    rcases hcase with hnil | ⟨hlen, hrole⟩
    · subst hnil
      simp [set_agent_instructions, h]
    · simp [set_agent_instructions, h, hlen, hrole]
  · intro h hne hnot
    have hemp : messages.isEmpty = false := by
      cases messages with
      | nil => exact absurd rfl hne
      | cons a l => rfl
    have hcond : (messages.length == 1 && !firstRoleIsSystem messages) = false := by
      by_cases hlen : messages.length = 1
      · by_cases hrole : firstRoleIsSystem messages
        · simp [hrole]
        · exact absurd ⟨hlen, by simpa using hrole⟩ hnot
      · simp [hlen]
    simp [set_agent_instructions, h, hemp, hcond]

theorem C3_witness :
    set_agent_instructions [⟨some "user", some (PyObj.str "hi"), [], Option.none⟩] "be nice" =
      [systemPromptMsg "be nice", ⟨some "user", some (PyObj.str "hi"), [], Option.none⟩] :=
  (C3_instruction_injection [⟨some "user", some (PyObj.str "hi"), [], Option.none⟩]
      "be nice").2.1 (by decide) (Or.inr (by exact ⟨rfl, rfl⟩))

/-- C6: a name registered both as a remote (MCP) tool and as a function
tool returns immediately with the collision error text as the result
content, with the tool state, the transcript and the execution record
untouched — neither tool is invoked. -/
theorem C6_collision (ctx : CallCtx) (t : Tool) (tc : ToolCall) (messages : List Msg)
    (m : MCPManager) (f : FunctionToolManager)
    (hm : t.mcp_manager = some m) (hf : t.ft_manager = some f)
    (h1 : m.is_mcp_tool tc.function.name = true)
    (h2 : f.is_function_tool tc.function.name = true) :
    Tool.call ctx t tc messages =
      Except.ok ⟨⟨"tool", tc.id, some (collisionText tc.function.name)⟩, t, messages, []⟩ := by
  have hr : t.resolvesMcp tc.function.name = true := by simp [Tool.resolvesMcp, hm, h1]
  have hr2 : t.resolvesFt tc.function.name = true := by simp [Tool.resolvesFt, hf, h2]
  simp [Tool.call, Tool.callParsed, hr, hr2]

theorem C6_witness :
    Tool.call ctx0 t6 tc6 [] =
      Except.ok ⟨⟨"tool", "c6", some (collisionText "dup")⟩, t6, [], []⟩ :=
  C6_collision ctx0 t6 tc6 [] m6 f6 rfl rfl rfl rfl

/-- C7: a raw arguments string that fails to parse is replaced by the
empty argument set and the dispatch proceeds — its outcome is exactly the
outcome of the same call dispatched with successfully parsed empty
arguments, so the parse failure alone never fails the dispatch. -/
theorem C7_parse_fallback (ctx : CallCtx) (t : Tool) (tc : ToolCall) (messages : List Msg)
    (h : ctx.parse tc.function.arguments = Option.none) :
    Tool.call ctx t tc messages =
      Tool.callParsed ctx t tc.function.name tc.id [] messages ∧
    ∀ tc2 : ToolCall, tc2.function.name = tc.function.name → tc2.id = tc.id →
      ctx.parse tc2.function.arguments = some [] →
      Tool.call ctx t tc2 messages = Tool.call ctx t tc messages := by
  constructor
  · simp [Tool.call, h]
  · intro tc2 hname hid h2
    simp [Tool.call, h, h2, hname, hid]

/-- Dispatch context whose argument parser always fails. -/
def ctx7 : CallCtx :=
  ⟨fun _ => Option.none, fun _ _ => Except.ok ⟨[], 0, [], [], false⟩, fun _ => "message"⟩

theorem C7_witness :
    Tool.call ctx7 t1ft tc1e [] =
      Tool.callParsed ctx7 t1ft tc1e.function.name tc1e.id [] [] ∧
    ∀ tc2 : ToolCall, tc2.function.name = tc1e.function.name → tc2.id = tc1e.id →
      ctx7.parse tc2.function.arguments = some [] →
      Tool.call ctx7 t1ft tc2 [] = Tool.call ctx7 t1ft tc1e [] :=
  C7_parse_fallback ctx7 t1ft tc1e [] rfl

theorem isEmpty_false_of_ne_nil {α : Type} (l : List α) (h : l ≠ []) :
    l.isEmpty = false := by
  cases l with
  | nil => exact absurd rfl h
  | cons a t => rfl

theorem execute_eq_run_dropLast (ctx : CallCtx) (s : SubAgentManager)
    (tool_name : String) (messages : List Msg) (ag : Agent) (rr : RunResponse)
    (hag : lookupStr s.agent_name_map tool_name = some ag)
    (hne : messages ≠ [])
    (hrun : ctx.run_sub_agent ag messages.dropLast = Except.ok rr) :
    s.execute ctx.run_sub_agent tool_name messages = Except.ok (rr, messages) := by
  simp [SubAgentManager.execute, hag, isEmpty_false_of_ne_nil messages hne, hrun, Except.map]

theorem callParsed_sub_only (ctx : CallCtx) (t : Tool) (s : SubAgentManager)
    (tool_name tool_call_id : String) (arguments : Args) (messages : List Msg)
    (ag : Agent) (rr : RunResponse)
    (hs : t.sub_agent_manager = some s)
    (hmcp : t.resolvesMcp tool_name = false)
    (hft : t.resolvesFt tool_name = false)
    (hag : lookupStr s.agent_name_map tool_name = some ag)
    (hne : messages ≠ [])
    (hrun : ctx.run_sub_agent ag messages.dropLast = Except.ok rr) :
    Tool.callParsed ctx t tool_name tool_call_id arguments messages =
      Except.ok ⟨⟨"tool", tool_call_id, some (subAgentResultContent ctx rr)⟩,
        { t with sub_agents_response :=
            updateStr t.sub_agents_response (stripSubAgentName tool_name) rr.sub_agent_result },
        messages, [Effect.subAgent messages.dropLast]⟩ := by
  have hisag : s.is_agent tool_name = true := by
    simp [SubAgentManager.is_agent, hag]
  have hexec := execute_eq_run_dropLast ctx s tool_name messages ag rr hag hne hrun
  cases hmm : t.mcp_manager with
  | none =>
      cases hfm : t.ft_manager with
      | none =>
          simp [Tool.callParsed, Tool.resolvesMcp, Tool.resolvesFt, hmm, hfm, hs,
            hisag, hexec]
      | some f =>
          have hf2 : f.is_function_tool tool_name = false := by
            have h2 := hft
            rw [Tool.resolvesFt, hfm] at h2
            exact h2
          simp [Tool.callParsed, Tool.resolvesMcp, Tool.resolvesFt, hmm, hfm, hf2, hs,
            hisag, hexec]
  | some m =>
      have hm2 : m.is_mcp_tool tool_name = false := by
        have h2 := hmcp
        rw [Tool.resolvesMcp, hmm] at h2
        exact h2
      cases hfm : t.ft_manager with
      | none =>
          simp [Tool.callParsed, Tool.resolvesMcp, Tool.resolvesFt, hmm, hfm, hm2, hs,
            hisag, hexec]
      | some f =>
          have hf2 : f.is_function_tool tool_name = false := by
            have h2 := hft
            rw [Tool.resolvesFt, hfm] at h2
            exact h2
          simp [Tool.callParsed, Tool.resolvesMcp, Tool.resolvesFt, hmm, hfm, hm2, hf2,
            hs, hisag, hexec]

theorem callParsed_mcp_sub (ctx : CallCtx) (t : Tool) (s : SubAgentManager) (m : MCPManager)
    (tool_name tool_call_id : String) (arguments : Args) (messages : List Msg)
    (ag : Agent) (rr : RunResponse)
    (hs : t.sub_agent_manager = some s)
    (hmm : t.mcp_manager = some m)
    (hm : m.is_mcp_tool tool_name = true)
    (hft : t.resolvesFt tool_name = false)
    (hag : lookupStr s.agent_name_map tool_name = some ag)
    (hne : messages ≠ [])
    (hrun : ctx.run_sub_agent ag messages.dropLast = Except.ok rr) :
    Tool.callParsed ctx t tool_name tool_call_id arguments messages =
      Except.ok ⟨⟨"tool", tool_call_id, some (subAgentResultContent ctx rr)⟩,
        { t with sub_agents_response :=
            updateStr t.sub_agents_response (stripSubAgentName tool_name) rr.sub_agent_result },
        messages, [Effect.remote, Effect.subAgent messages.dropLast]⟩ := by
  have hisag : s.is_agent tool_name = true := by
    simp [SubAgentManager.is_agent, hag]
  have hexec := execute_eq_run_dropLast ctx s tool_name messages ag rr hag hne hrun
  cases hfm : t.ft_manager with
  | none =>
      simp [Tool.callParsed, Tool.resolvesMcp, Tool.resolvesFt, hmm, hfm, hm, hs,
        hisag, hexec]
  | some f =>
      have hf2 : f.is_function_tool tool_name = false := by
        have h2 := hft
        rw [Tool.resolvesFt, hfm] at h2
        exact h2
      simp [Tool.callParsed, Tool.resolvesMcp, Tool.resolvesFt, hmm, hfm, hm, hf2, hs,
        hisag, hexec]

theorem callParsed_ft_sub (ctx : CallCtx) (t : Tool) (s : SubAgentManager)
    (f : FunctionToolManager) (v : PyObj)
    (tool_name tool_call_id : String) (arguments : Args) (messages : List Msg)
    (ag : Agent) (rr : RunResponse)
    (hs : t.sub_agent_manager = some s)
    (hfm : t.ft_manager = some f)
    (hf : f.is_function_tool tool_name = true)
    (hmcp : t.resolvesMcp tool_name = false)
    (hcall : f.call_tool tool_name arguments = Except.ok v)
    (hag : lookupStr s.agent_name_map tool_name = some ag)
    (hne : messages ≠ [])
    (hrun : ctx.run_sub_agent ag messages.dropLast = Except.ok rr) :
    Tool.callParsed ctx t tool_name tool_call_id arguments messages =
      Except.ok ⟨⟨"tool", tool_call_id, some (subAgentResultContent ctx rr)⟩,
        { t with sub_agents_response :=
            updateStr t.sub_agents_response (stripSubAgentName tool_name) rr.sub_agent_result },
        messages, [Effect.functionTool, Effect.subAgent messages.dropLast]⟩ := by
  have hisag : s.is_agent tool_name = true := by
    simp [SubAgentManager.is_agent, hag]
  have hexec := execute_eq_run_dropLast ctx s tool_name messages ag rr hag hne hrun
  cases hmm : t.mcp_manager with
  | none =>
      simp [Tool.callParsed, Tool.resolvesMcp, Tool.resolvesFt, hmm, hfm, hf, hcall, hs,
        hisag, hexec, Except.map]
  | some mm =>
      have hm2 : mm.is_mcp_tool tool_name = false := by
        have h2 := hmcp
        rw [Tool.resolvesMcp, hmm] at h2
        exact h2
      simp [Tool.callParsed, Tool.resolvesMcp, Tool.resolvesFt, hmm, hfm, hm2, hf, hcall,
        hs, hisag, hexec, Except.map]

theorem callParsed_unresolved (ctx : CallCtx) (t : Tool)
    (tool_name tool_call_id : String) (arguments : Args) (messages : List Msg)
    (hmcp : t.resolvesMcp tool_name = false)
    (hft : t.resolvesFt tool_name = false)
    (hsub : t.resolvesSub tool_name = false) :
    Tool.callParsed ctx t tool_name tool_call_id arguments messages =
      Except.ok ⟨⟨"tool", tool_call_id, Option.none⟩, t, messages, []⟩ := by
  cases hmm : t.mcp_manager with
  | none =>
      cases hfm : t.ft_manager with
      | none =>
          cases hsm : t.sub_agent_manager with
          | none => simp [Tool.callParsed, hmm, hfm, hsm, hmcp, hft]
          | some s =>
              have hs2 : s.is_agent tool_name = false := by
                have h2 := hsub
                rw [Tool.resolvesSub, hsm] at h2
                exact h2
              simp [Tool.callParsed, hmm, hfm, hsm, hs2, hmcp, hft]
      | some f =>
          have hf2 : f.is_function_tool tool_name = false := by
            have h2 := hft
            rw [Tool.resolvesFt, hfm] at h2
            exact h2
          cases hsm : t.sub_agent_manager with
          | none => simp [Tool.callParsed, hmm, hfm, hf2, hsm, hmcp, hft]
          | some s =>
              have hs2 : s.is_agent tool_name = false := by
                have h2 := hsub
                rw [Tool.resolvesSub, hsm] at h2
                exact h2
              simp [Tool.callParsed, hmm, hfm, hf2, hsm, hs2, hmcp, hft]
  | some m =>
      have hm2 : m.is_mcp_tool tool_name = false := by
        have h2 := hmcp
        rw [Tool.resolvesMcp, hmm] at h2
        exact h2
      cases hfm : t.ft_manager with
      | none =>
          cases hsm : t.sub_agent_manager with
          | none => simp [Tool.callParsed, hmm, hm2, hfm, hsm, hmcp, hft]
          | some s =>
              have hs2 : s.is_agent tool_name = false := by
                have h2 := hsub
                rw [Tool.resolvesSub, hsm] at h2
                exact h2
              simp [Tool.callParsed, hmm, hm2, hfm, hsm, hs2, hmcp, hft]
      | some f =>
          have hf2 : f.is_function_tool tool_name = false := by
            have h2 := hft
            rw [Tool.resolvesFt, hfm] at h2
            exact h2
          cases hsm : t.sub_agent_manager with
          | none => simp [Tool.callParsed, hmm, hm2, hfm, hf2, hsm, hmcp, hft]
          | some s =>
              have hs2 : s.is_agent tool_name = false := by
                have h2 := hsub
                rw [Tool.resolvesSub, hsm] at h2
                exact h2
              simp [Tool.callParsed, hmm, hm2, hfm, hf2, hsm, hs2, hmcp, hft]

theorem callParsed_mcp_only (ctx : CallCtx) (t : Tool) (m : MCPManager)
    (tool_name tool_call_id : String) (arguments : Args) (messages : List Msg)
    (hmm : t.mcp_manager = some m)
    (hm : m.is_mcp_tool tool_name = true)
    (hft : t.resolvesFt tool_name = false)
    (hsub : t.resolvesSub tool_name = false) :
    Tool.callParsed ctx t tool_name tool_call_id arguments messages =
      Except.ok ⟨⟨"tool", tool_call_id, some (mcpToolResult m tool_name arguments)⟩,
        t, messages, [Effect.remote]⟩ := by
  cases hfm : t.ft_manager with
  | none =>
      cases hsm : t.sub_agent_manager with
      | none => simp [Tool.callParsed, Tool.resolvesMcp, Tool.resolvesFt, hmm, hm, hfm, hsm]
      | some s =>
          have hs2 : s.is_agent tool_name = false := by
            have h2 := hsub
            rw [Tool.resolvesSub, hsm] at h2
            exact h2
          simp [Tool.callParsed, Tool.resolvesMcp, Tool.resolvesFt, hmm, hm, hfm, hsm, hs2]
  | some f =>
      have hf2 : f.is_function_tool tool_name = false := by
        have h2 := hft
        rw [Tool.resolvesFt, hfm] at h2
        exact h2
      cases hsm : t.sub_agent_manager with
      | none =>
          simp [Tool.callParsed, Tool.resolvesMcp, Tool.resolvesFt, hmm, hm, hfm, hf2, hsm]
      | some s =>
          have hs2 : s.is_agent tool_name = false := by
            have h2 := hsub
            rw [Tool.resolvesSub, hsm] at h2
            exact h2
          simp [Tool.callParsed, Tool.resolvesMcp, Tool.resolvesFt, hmm, hm, hfm, hf2,
            hsm, hs2]

theorem callParsed_ft_only (ctx : CallCtx) (t : Tool) (f : FunctionToolManager) (v : PyObj)
    (tool_name tool_call_id : String) (arguments : Args) (messages : List Msg)
    (hfm : t.ft_manager = some f)
    (hf : f.is_function_tool tool_name = true)
    (hmcp : t.resolvesMcp tool_name = false)
    (hsub : t.resolvesSub tool_name = false)
    (hcall : f.call_tool tool_name arguments = Except.ok v) :
    Tool.callParsed ctx t tool_name tool_call_id arguments messages =
      Except.ok ⟨⟨"tool", tool_call_id, some (pyStr v)⟩, t, messages, [Effect.functionTool]⟩ := by
  cases hmm : t.mcp_manager with
  | none =>
      cases hsm : t.sub_agent_manager with
      | none =>
          simp [Tool.callParsed, Tool.resolvesMcp, Tool.resolvesFt, hmm, hfm, hf, hcall,
            hsm, Except.map]
      | some s =>
          have hs2 : s.is_agent tool_name = false := by
            have h2 := hsub
            rw [Tool.resolvesSub, hsm] at h2
            exact h2
          simp [Tool.callParsed, Tool.resolvesMcp, Tool.resolvesFt, hmm, hfm, hf, hcall,
            hsm, hs2, Except.map]
  | some m =>
      have hm2 : m.is_mcp_tool tool_name = false := by
        have h2 := hmcp
        rw [Tool.resolvesMcp, hmm] at h2
        exact h2
      cases hsm : t.sub_agent_manager with
      | none =>
          simp [Tool.callParsed, Tool.resolvesMcp, Tool.resolvesFt, hmm, hm2, hfm, hf,
            hcall, hsm, Except.map]
      | some s =>
          have hs2 : s.is_agent tool_name = false := by
            have h2 := hsub
            rw [Tool.resolvesSub, hsm] at h2
            exact h2
          simp [Tool.callParsed, Tool.resolvesMcp, Tool.resolvesFt, hmm, hm2, hfm, hf,
            hcall, hsm, hs2, Except.map]

theorem callParsed_collision (ctx : CallCtx) (t : Tool)
    (tool_name tool_call_id : String) (arguments : Args) (messages : List Msg)
    (hm : t.resolvesMcp tool_name = true) (hf : t.resolvesFt tool_name = true) :
    Tool.callParsed ctx t tool_name tool_call_id arguments messages =
      Except.ok ⟨⟨"tool", tool_call_id, some (collisionText tool_name)⟩, t, messages, []⟩ := by
  simp [Tool.callParsed, hm, hf]

theorem resolvesMcp_some (t : Tool) (name : String) (h : t.resolvesMcp name = true) :
    ∃ m, t.mcp_manager = some m ∧ m.is_mcp_tool name = true := by
  rw [Tool.resolvesMcp] at h
  cases h2 : t.mcp_manager with
  | none => rw [h2] at h; cases h
  | some m => rw [h2] at h; exact ⟨m, rfl, h⟩

theorem resolvesFt_some (t : Tool) (name : String) (h : t.resolvesFt name = true) :
    ∃ f, t.ft_manager = some f ∧ f.is_function_tool name = true := by
  rw [Tool.resolvesFt] at h
  cases h2 : t.ft_manager with
  | none => rw [h2] at h; cases h
  | some f => rw [h2] at h; exact ⟨f, rfl, h⟩

theorem resolvesSub_some (t : Tool) (name : String) (h : t.resolvesSub name = true) :
    ∃ s ag, t.sub_agent_manager = some s ∧ lookupStr s.agent_name_map name = some ag := by
  rw [Tool.resolvesSub] at h
  cases h2 : t.sub_agent_manager with
  | none => rw [h2] at h; cases h
  | some s =>
      rw [h2] at h
      unfold SubAgentManager.is_agent at h
      rw [Option.isSome_iff_exists] at h
      obtain ⟨ag, hag⟩ := h
      exact ⟨s, ag, rfl, hag⟩

theorem updateStr_updateStr {α : Type} (m : List (String × α)) (k : String) (v v2 : α) :
    updateStr (updateStr m k v) k v2 = updateStr m k v2 := by
  induction m with
  | nil => simp [updateStr]
  | cons p rest ih =>
      by_cases hp : p.1 = k
      · simp [updateStr, hp]
      · simp [updateStr, hp, ih]

/-- C4: a sub-agent dispatch runs the child on a copy of the current
transcript from which exactly the last entry has been removed, and the
parent's own transcript list is observably unmodified by the sub-agent's
execution. -/
theorem C4_subagent_transcript (ctx : CallCtx) (t : Tool) (s : SubAgentManager)
    (tc : ToolCall) (messages : List Msg) (ag : Agent) (rr : RunResponse)
    (hs : t.sub_agent_manager = some s)
    (hmcp : t.resolvesMcp tc.function.name = false)
    (hft : t.resolvesFt tc.function.name = false)
    (hag : lookupStr s.agent_name_map tc.function.name = some ag)
    (hne : messages ≠ [])
    (hrun : ctx.run_sub_agent ag messages.dropLast = Except.ok rr) :
    ∃ out, Tool.call ctx t tc messages = Except.ok out ∧
      out.effects = [Effect.subAgent messages.dropLast] ∧
      out.messages = messages ∧
      messages.dropLast.length + 1 = messages.length := by
  have h := callParsed_sub_only ctx t s tc.function.name tc.id
    ((ctx.parse tc.function.arguments).getD []) messages ag rr hs hmcp hft hag hne hrun
  refine ⟨_, h, rfl, rfl, ?_⟩
  cases messages with
  | nil => exact absurd rfl hne
  | cons a l => simp

/-- Sub-agent fixture agent `A`. -/
def agA : Agent := ⟨"A", "you are agent A", "gpt", "child A", 10⟩

/-- Sub-agent fixture agent `B`. -/
def agB : Agent := ⟨"B", "you are agent B", "gpt", "child B", 10⟩

/-- Sub-agent registry holding `A` and `B` under their prefixed names. -/
def s5 : SubAgentManager := ⟨[("sub_agent__A", agA), ("sub_agent__B", agB)]⟩

/-- System record of child `A`'s sub-transcript. -/
def mSysA : Msg := { role := some "system", content := some (PyObj.str "you are agent A") }

/-- Final assistant record of child `A`'s sub-transcript. -/
def mAnsA : Msg := { role := some "assistant", content := some (PyObj.str "answer from A") }

/-- System record of child `B`'s sub-transcript. -/
def mSysB : Msg := { role := some "system", content := some (PyObj.str "you are agent B") }

/-- Final assistant record of child `B`'s sub-transcript. -/
def mAnsB : Msg := { role := some "assistant", content := some (PyObj.str "answer from B") }

/-- Run result of child `A`: a two-record sub-transcript. -/
def rrA : RunResponse :=
  { result := [mSysA, mAnsA], iterations := 1, sub_agent_result := [mSysA, mAnsA] }

/-- Run result of child `B`: a two-record sub-transcript. -/
def rrB : RunResponse :=
  { result := [mSysB, mAnsB], iterations := 1, sub_agent_result := [mSysB, mAnsB] }

/-- Dispatch context routing child runs to the fixture run results. -/
def ctx5 : CallCtx :=
  ⟨fun _ => some [],
   fun ag _ => Except.ok (if ag.name = "A" then rrA else rrB),
   fun _ => "message"⟩

/-- Tool state with only the fixture sub-agent registry. -/
def t5 : Tool := { sub_agent_manager := some s5 }

/-- Delegation request for child `A`. -/
def tc5A : ToolCall := ⟨"c5a", ⟨"sub_agent__A", "\x7b\x7d"⟩⟩

/-- Delegation request for child `B`. -/
def tc5B : ToolCall := ⟨"c5b", ⟨"sub_agent__B", "\x7b\x7d"⟩⟩

/-- Parent assistant record that triggered the delegation. -/
def parentMsg : Msg := { role := some "assistant", tool_calls := [tc5A] }

theorem C4_witness :
    ∃ out, Tool.call ctx5 t5 tc5A [parentMsg] = Except.ok out ∧
      out.effects = [Effect.subAgent ([parentMsg] : List Msg).dropLast] ∧
      out.messages = [parentMsg] ∧
      ([parentMsg] : List Msg).dropLast.length + 1 = ([parentMsg] : List Msg).length :=
  C4_subagent_transcript ctx5 t5 s5 tc5A [parentMsg] agA rrA rfl rfl rfl rfl
    (by decide) rfl

/-- C1 counterexample: with no registry configured, dispatching an
unresolvable name returns content `None` — neither an error text naming
the tool nor a non-empty string — and a function tool returning the empty
string yields empty content. -/
theorem C1_counterexample :
    Tool.call ctx0 t1none tc1 [] =
      Except.ok ⟨⟨"tool", "call_1", Option.none⟩, t1none, [], []⟩ ∧
    Tool.call ctx0 t1ft tc1e [] =
      Except.ok ⟨⟨"tool", "call_2", some ""⟩, t1ft, [], [Effect.functionTool]⟩ :=
  ⟨rfl, rfl⟩

/-- C1 amended: provided the resolved function tool's own call and the
resolved sub-agent's own run do not raise, dispatch always returns a
result without raising; a remote/function collision and every remote
outcome (including transport errors) are converted into non-empty textual
content, but a name resolving to no registry yields content `None` rather
than an error text naming the tool. -/
theorem C1_amended_dispatch (ctx : CallCtx) (t : Tool) (tc : ToolCall) (messages : List Msg)
    (hftok : ∀ f, t.ft_manager = some f → f.is_function_tool tc.function.name = true →
      ∃ v, f.call_tool tc.function.name ((ctx.parse tc.function.arguments).getD []) =
        Except.ok v)
    (hsubok : ∀ s ag, t.sub_agent_manager = some s →
      lookupStr s.agent_name_map tc.function.name = some ag →
      messages ≠ [] ∧ ∃ rr, ctx.run_sub_agent ag messages.dropLast = Except.ok rr) :
    ∃ out, Tool.call ctx t tc messages = Except.ok out ∧
      (t.resolvesMcp tc.function.name = false → t.resolvesFt tc.function.name = false →
        t.resolvesSub tc.function.name = false → out.resp.content = Option.none) ∧
      (t.resolvesMcp tc.function.name = true → t.resolvesFt tc.function.name = true →
        out.resp.content = some (collisionText tc.function.name)) ∧
      (t.resolvesMcp tc.function.name = true → t.resolvesFt tc.function.name = false →
        t.resolvesSub tc.function.name = false →
        ∃ str2, out.resp.content = some str2 ∧ str2 ≠ "") := by
  by_cases hm : t.resolvesMcp tc.function.name = true
  · by_cases hf : t.resolvesFt tc.function.name = true
    · refine ⟨_, callParsed_collision ctx t tc.function.name tc.id _ messages hm hf,
        ?_, ?_, ?_⟩
      · intro h1 _ _
        rw [h1] at hm
        cases hm
      · intro _ _
        rfl
      · intro _ hf2 _
        rw [hf2] at hf
        cases hf
    · have hf0 : t.resolvesFt tc.function.name = false := by simpa using hf
      obtain ⟨m, hmm, hmtool⟩ := resolvesMcp_some t _ hm
      by_cases hsb : t.resolvesSub tc.function.name = true
      · obtain ⟨s, ag, hsm, hag⟩ := resolvesSub_some t _ hsb
        obtain ⟨hne, rr, hrr⟩ := hsubok s ag hsm hag
        refine ⟨_, callParsed_mcp_sub ctx t s m tc.function.name tc.id _ messages ag rr
          hsm hmm hmtool hf0 hag hne hrr, ?_, ?_, ?_⟩
        · intro h1 _ _
          rw [h1] at hm
          cases hm
        · intro _ h2
          rw [h2] at hf0
          cases hf0
        · intro _ _ h3
          rw [h3] at hsb
          cases hsb
      · have hs0 : t.resolvesSub tc.function.name = false := by simpa using hsb
        refine ⟨_, callParsed_mcp_only ctx t m tc.function.name tc.id _ messages
          hmm hmtool hf0 hs0, ?_, ?_, ?_⟩
        · intro h1 _ _
          rw [h1] at hm
          cases hm
        · intro _ h2
          rw [h2] at hf0
          cases hf0
        · intro _ _ _
          exact ⟨_, rfl, mcpToolResult_ne_empty m tc.function.name _⟩
  · have hm0 : t.resolvesMcp tc.function.name = false := by simpa using hm
    by_cases hf : t.resolvesFt tc.function.name = true
    · obtain ⟨f, hfm, hftool⟩ := resolvesFt_some t _ hf
      obtain ⟨v, hv⟩ := hftok f hfm hftool
      by_cases hsb : t.resolvesSub tc.function.name = true
      · obtain ⟨s, ag, hsm, hag⟩ := resolvesSub_some t _ hsb
        obtain ⟨hne, rr, hrr⟩ := hsubok s ag hsm hag
        refine ⟨_, callParsed_ft_sub ctx t s f v tc.function.name tc.id _ messages ag rr
          hsm hfm hftool hm0 hv hag hne hrr, ?_, ?_, ?_⟩
        · intro _ h2 _
          rw [h2] at hf
          cases hf
        · intro h1 _
          rw [h1] at hm0
          cases hm0
        · intro h1 _ _
          rw [h1] at hm0
          cases hm0
      · have hs0 : t.resolvesSub tc.function.name = false := by simpa using hsb
        refine ⟨_, callParsed_ft_only ctx t f v tc.function.name tc.id _ messages
          hfm hftool hm0 hs0 hv, ?_, ?_, ?_⟩
        · intro _ h2 _
          rw [h2] at hf
          cases hf
        · intro h1 _
          rw [h1] at hm0
          cases hm0
        · intro h1 _ _
          rw [h1] at hm0
          cases hm0
    · have hf0 : t.resolvesFt tc.function.name = false := by simpa using hf
      by_cases hsb : t.resolvesSub tc.function.name = true
      · obtain ⟨s, ag, hsm, hag⟩ := resolvesSub_some t _ hsb
        obtain ⟨hne, rr, hrr⟩ := hsubok s ag hsm hag
        refine ⟨_, callParsed_sub_only ctx t s tc.function.name tc.id _ messages ag rr
          hsm hm0 hf0 hag hne hrr, ?_, ?_, ?_⟩
        · intro _ _ h3
          rw [h3] at hsb
          cases hsb
        · intro h1 _
          rw [h1] at hm0
          cases hm0
        · intro h1 _ _
          rw [h1] at hm0
          cases hm0
      · have hs0 : t.resolvesSub tc.function.name = false := by simpa using hsb
        refine ⟨_, callParsed_unresolved ctx t tc.function.name tc.id _ messages
          hm0 hf0 hs0, ?_, ?_, ?_⟩
        · intro _ _ _
          rfl
        · intro h1 _
          rw [h1] at hm0
          cases hm0
        · intro h1 _ _
          rw [h1] at hm0
          cases hm0

theorem C1_witness :
    ∃ out, Tool.call ctx0 t1none tc1 [] = Except.ok out ∧
      (t1none.resolvesMcp tc1.function.name = false →
        t1none.resolvesFt tc1.function.name = false →
        t1none.resolvesSub tc1.function.name = false → out.resp.content = Option.none) ∧
      (t1none.resolvesMcp tc1.function.name = true →
        t1none.resolvesFt tc1.function.name = true →
        out.resp.content = some (collisionText tc1.function.name)) ∧
      (t1none.resolvesMcp tc1.function.name = true →
        t1none.resolvesFt tc1.function.name = false →
        t1none.resolvesSub tc1.function.name = false →
        ∃ str2, out.resp.content = some str2 ∧ str2 ≠ "") := by
  refine C1_amended_dispatch ctx0 t1none tc1 [] ?_ ?_
  · intro f h
    simp [t1none] at h
  · intro s ag h
    simp [t1none] at h

/-- Remote registry resolving exactly the prefixed name of child `A`
(overlap fixture). -/
def m10 : MCPManager :=
  ⟨fun n => n == "sub_agent__A", fun _ _ => McpOutcome.ok ⟨[McpContent.text (some "mcp says")]⟩⟩

/-- Function registry holding a tool under the prefixed name of child `A`
(overlap fixture). -/
def f10 : FunctionToolManager :=
  ⟨[("sub_agent__A", fun _ => Except.ok (PyObj.str "ft result"))]⟩

/-- Tool state where `sub_agent__A` is registered in all three
registries. -/
def t10 : Tool :=
  { mcp_manager := some m10, ft_manager := some f10, sub_agent_manager := some s5 }

/-- Request for the triply-registered name. -/
def tc10 : ToolCall := ⟨"c10", ⟨"sub_agent__A", "\x7b\x7d"⟩⟩

/-- C10 counterexample: when the name is simultaneously a remote tool, a
function tool and a sub-agent, dispatch returns the remote/function
collision error immediately and executes no registry at all — contrary to
the claim that each matching registry runs and the sub-agent result is
returned. -/
theorem C10_counterexample :
    Tool.call ctx5 t10 tc10 [parentMsg] =
      Except.ok ⟨⟨"tool", "c10", some (collisionText "sub_agent__A")⟩, t10, [parentMsg], []⟩ :=
  rfl

/-- C10 amended: a name resolving to the sub-agent registry and to exactly
one of the remote or function registries is never reported as a collision;
the matching registries execute within one dispatch — remote first, then
function, then sub-agent — and the sub-agent's result silently overwrites
the earlier registry's result as the returned content; a name additionally
in both other registries hits the remote/function collision check first
and nothing executes. -/
theorem C10_amended_overlap (ctx : CallCtx) (t : Tool) (s : SubAgentManager)
    (tc : ToolCall) (messages : List Msg) (ag : Agent) (rr : RunResponse)
    (hs : t.sub_agent_manager = some s)
    (hag : lookupStr s.agent_name_map tc.function.name = some ag)
    (hone : t.resolvesMcp tc.function.name = true ∨ t.resolvesFt tc.function.name = true)
    (hnotboth : ¬(t.resolvesMcp tc.function.name = true ∧
      t.resolvesFt tc.function.name = true))
    (hftok : ∀ f, t.ft_manager = some f → f.is_function_tool tc.function.name = true →
      ∃ v, f.call_tool tc.function.name ((ctx.parse tc.function.arguments).getD []) =
        Except.ok v)
    (hne : messages ≠ [])
    (hrun : ctx.run_sub_agent ag messages.dropLast = Except.ok rr) :
    ∃ out, Tool.call ctx t tc messages = Except.ok out ∧
      out.effects = (if t.resolvesMcp tc.function.name then [Effect.remote] else []) ++
        (if t.resolvesFt tc.function.name then [Effect.functionTool] else []) ++
        [Effect.subAgent messages.dropLast] ∧
      out.resp.content = some (subAgentResultContent ctx rr) ∧
      lookupStr out.tool.sub_agents_response (stripSubAgentName tc.function.name) =
        some rr.sub_agent_result := by
  rcases hone with hm | hf
  · have hf0 : t.resolvesFt tc.function.name = false := by
      by_cases h2 : t.resolvesFt tc.function.name = true
      · exact absurd ⟨hm, h2⟩ hnotboth
      · simpa using h2
    obtain ⟨m, hmm, hmtool⟩ := resolvesMcp_some t _ hm
    refine ⟨_, callParsed_mcp_sub ctx t s m tc.function.name tc.id _ messages ag rr
      hs hmm hmtool hf0 hag hne hrun, ?_, rfl, ?_⟩
    · simp [hm, hf0]
    · simp [lookupStr_updateStr_self]
  · have hm0 : t.resolvesMcp tc.function.name = false := by
      by_cases h2 : t.resolvesMcp tc.function.name = true
      · exact absurd ⟨h2, hf⟩ hnotboth
      · simpa using h2
    obtain ⟨f, hfm, hftool⟩ := resolvesFt_some t _ hf
    obtain ⟨v, hv⟩ := hftok f hfm hftool
    refine ⟨_, callParsed_ft_sub ctx t s f v tc.function.name tc.id _ messages ag rr
      hs hfm hftool hm0 hv hag hne hrun, ?_, rfl, ?_⟩
    · simp [hm0, hf]
    · simp [lookupStr_updateStr_self]

/-- Tool state where the prefixed name of child `A` is both a remote tool
and a sub-agent (no function registry). -/
def t10b : Tool := { mcp_manager := some m10, sub_agent_manager := some s5 }

theorem C10_witness :
    ∃ out, Tool.call ctx5 t10b tc10 [parentMsg] = Except.ok out ∧
      out.effects = (if t10b.resolvesMcp tc10.function.name then [Effect.remote] else []) ++
        (if t10b.resolvesFt tc10.function.name then [Effect.functionTool] else []) ++
        [Effect.subAgent ([parentMsg] : List Msg).dropLast] ∧
      out.resp.content = some (subAgentResultContent ctx5 rrA) ∧
      lookupStr out.tool.sub_agents_response (stripSubAgentName tc10.function.name) =
        some rrA.sub_agent_result := by
  refine C10_amended_overlap ctx5 t10b s5 tc10 [parentMsg] agA rrA rfl rfl
    (Or.inl rfl) ?_ ?_ (by decide) rfl
  · rintro ⟨_, h2⟩
    simp [t10b, Tool.resolvesFt] at h2
  · intro f h
    simp [t10b] at h

/-- C5 counterexample: after delegating once to child `A`, the aggregated
sub-agent map holds, under key `A`, the child's whole two-record
sub-transcript — not the child's last emitted message. -/
theorem C5_counterexample :
    ∃ out, Tool.call ctx5 t5 tc5A [parentMsg] = Except.ok out ∧
      lookupStr out.tool.sub_agents_response "A" = some [mSysA, mAnsA] ∧
      ([mSysA, mAnsA] : List Msg) ≠ [mAnsA] :=
  ⟨_, rfl, rfl, by decide⟩

/-- C5 amended: across a run's sub-agent dispatches the aggregated map
stores, under each invoked child's name with the `sub_agent__` marker
stripped, that child's whole emitted sub-transcript (whose last entry is
the child's last emitted message); for two children `A` and `B` both keys
are present regardless of invocation order, and a repeated invocation of
the same child overwrites its single entry instead of appending. -/
theorem C5_amended_subagent_map (ctx : CallCtx) (t : Tool) (s : SubAgentManager)
    (tcA tcB : ToolCall) (m1 m2 m3 : List Msg) (agA2 agB2 : Agent)
    (rA rB rB1 rA2 rA3 : RunResponse)
    (hs : t.sub_agent_manager = some s)
    (hmcpA : t.resolvesMcp tcA.function.name = false)
    (hftA : t.resolvesFt tcA.function.name = false)
    (hmcpB : t.resolvesMcp tcB.function.name = false)
    (hftB : t.resolvesFt tcB.function.name = false)
    (hagA : lookupStr s.agent_name_map tcA.function.name = some agA2)
    (hagB : lookupStr s.agent_name_map tcB.function.name = some agB2)
    (hne1 : m1 ≠ []) (hne2 : m2 ≠ []) (hne3 : m3 ≠ [])
    (hkey : stripSubAgentName tcA.function.name ≠ stripSubAgentName tcB.function.name)
    (hrA1 : ctx.run_sub_agent agA2 m1.dropLast = Except.ok rA)
    (hrB2 : ctx.run_sub_agent agB2 m2.dropLast = Except.ok rB)
    (hrB1 : ctx.run_sub_agent agB2 m1.dropLast = Except.ok rB1)
    (hrA2 : ctx.run_sub_agent agA2 m2.dropLast = Except.ok rA2)
    (hrA3 : ctx.run_sub_agent agA2 m3.dropLast = Except.ok rA3) :
    (∃ o1 o2, Tool.call ctx t tcA m1 = Except.ok o1 ∧
      Tool.call ctx o1.tool tcB m2 = Except.ok o2 ∧
      lookupStr o2.tool.sub_agents_response (stripSubAgentName tcA.function.name) =
        some rA.sub_agent_result ∧
      lookupStr o2.tool.sub_agents_response (stripSubAgentName tcB.function.name) =
        some rB.sub_agent_result) ∧
    (∃ o1 o2, Tool.call ctx t tcB m1 = Except.ok o1 ∧
      Tool.call ctx o1.tool tcA m2 = Except.ok o2 ∧
      lookupStr o2.tool.sub_agents_response (stripSubAgentName tcA.function.name) =
        some rA2.sub_agent_result ∧
      lookupStr o2.tool.sub_agents_response (stripSubAgentName tcB.function.name) =
        some rB1.sub_agent_result) ∧
    (∃ o1 o2, Tool.call ctx t tcA m1 = Except.ok o1 ∧
      Tool.call ctx o1.tool tcA m3 = Except.ok o2 ∧
      o2.tool.sub_agents_response =
        updateStr t.sub_agents_response (stripSubAgentName tcA.function.name)
          rA3.sub_agent_result ∧
      lookupStr o2.tool.sub_agents_response (stripSubAgentName tcA.function.name) =
        some rA3.sub_agent_result) := by
  refine ⟨?_, ?_, ?_⟩
  · have h1 := callParsed_sub_only ctx t s tcA.function.name tcA.id
      ((ctx.parse tcA.function.arguments).getD []) m1 agA2 rA hs hmcpA hftA hagA hne1 hrA1
    have h2 := callParsed_sub_only ctx
      { t with sub_agents_response := (updateStr t.sub_agents_response (stripSubAgentName tcA.function.name) rA.sub_agent_result) }
      s tcB.function.name tcB.id
      ((ctx.parse tcB.function.arguments).getD []) m2 agB2 rB hs hmcpB hftB hagB hne2 hrB2
    refine ⟨_, _, h1, h2, ?_, ?_⟩
    · rw [lookupStr_updateStr_ne _ _ _ _ hkey, lookupStr_updateStr_self]
    · rw [lookupStr_updateStr_self]
  · have h1 := callParsed_sub_only ctx t s tcB.function.name tcB.id
      ((ctx.parse tcB.function.arguments).getD []) m1 agB2 rB1 hs hmcpB hftB hagB hne1 hrB1
    have h2 := callParsed_sub_only ctx
      { t with sub_agents_response := (updateStr t.sub_agents_response (stripSubAgentName tcB.function.name) rB1.sub_agent_result) }
      s tcA.function.name tcA.id
      ((ctx.parse tcA.function.arguments).getD []) m2 agA2 rA2 hs hmcpA hftA hagA hne2 hrA2
    refine ⟨_, _, h1, h2, ?_, ?_⟩
    · rw [lookupStr_updateStr_self]
    · rw [lookupStr_updateStr_ne _ _ _ _ (fun hh => hkey hh.symm), lookupStr_updateStr_self]
  · have h1 := callParsed_sub_only ctx t s tcA.function.name tcA.id
      ((ctx.parse tcA.function.arguments).getD []) m1 agA2 rA hs hmcpA hftA hagA hne1 hrA1
    have h2 := callParsed_sub_only ctx
      { t with sub_agents_response := (updateStr t.sub_agents_response (stripSubAgentName tcA.function.name) rA.sub_agent_result) }
      s tcA.function.name tcA.id
      ((ctx.parse tcA.function.arguments).getD []) m3 agA2 rA3 hs hmcpA hftA hagA hne3 hrA3
    refine ⟨_, _, h1, h2, ?_, ?_⟩
    · exact updateStr_updateStr t.sub_agents_response (stripSubAgentName tcA.function.name)
        rA.sub_agent_result rA3.sub_agent_result
    · rw [updateStr_updateStr, lookupStr_updateStr_self]

theorem C5_witness :
    (∃ o1 o2, Tool.call ctx5 t5 tc5A [parentMsg] = Except.ok o1 ∧
      Tool.call ctx5 o1.tool tc5B [parentMsg] = Except.ok o2 ∧
      lookupStr o2.tool.sub_agents_response (stripSubAgentName tc5A.function.name) =
        some rrA.sub_agent_result ∧
      lookupStr o2.tool.sub_agents_response (stripSubAgentName tc5B.function.name) =
        some rrB.sub_agent_result) ∧
    (∃ o1 o2, Tool.call ctx5 t5 tc5B [parentMsg] = Except.ok o1 ∧
      Tool.call ctx5 o1.tool tc5A [parentMsg] = Except.ok o2 ∧
      lookupStr o2.tool.sub_agents_response (stripSubAgentName tc5A.function.name) =
        some rrA.sub_agent_result ∧
      lookupStr o2.tool.sub_agents_response (stripSubAgentName tc5B.function.name) =
        some rrB.sub_agent_result) ∧
    (∃ o1 o2, Tool.call ctx5 t5 tc5A [parentMsg] = Except.ok o1 ∧
      Tool.call ctx5 o1.tool tc5A [parentMsg] = Except.ok o2 ∧
      o2.tool.sub_agents_response =
        updateStr t5.sub_agents_response (stripSubAgentName tc5A.function.name)
          rrA.sub_agent_result ∧
      lookupStr o2.tool.sub_agents_response (stripSubAgentName tc5A.function.name) =
        some rrA.sub_agent_result) :=
  C5_amended_subagent_map ctx5 t5 s5 tc5A tc5B [parentMsg] [parentMsg] [parentMsg]
    agA agB rrA rrB rrB rrA rrA rfl rfl rfl rfl rfl rfl rfl
    (by decide) (by decide) (by decide) (by decide) rfl rfl rfl rfl rfl

/-- Remote manager fixture for the streaming teardown run. -/
def m8 : MCPManager := ⟨fun _ => false, fun _ _ => McpOutcome.ok ⟨[]⟩⟩

/-- Tool state owning remote sessions but resolving no tool names. -/
def t8 : Tool := { mcp_manager := some m8 }

/-- Agent fixture for the streaming teardown run (no instructions, budget
of ten iterations). -/
def agent8 : Agent := ⟨"main", "", "gpt", "", 10⟩

/-- Model stream fixture: every iteration streams one content chunk and no
tool calls. -/
def soracle8 : Nat → Except Exc (List Chunk) := fun _ => Except.ok [⟨some "hello", []⟩]

/-- C8: a streaming consumer that pulls one event and then closes the
stream never triggers the session teardown — the thrown `GeneratorExit` is
not caught by the `except Exception` clause — although draining the same
stream performs the teardown exactly once. -/
theorem C8_cancellation_close_skipped :
    closeCount (Runner.run_stream_cancelled ctx0 soracle8 agent8 t8 [] 1) = 0 ∧
    closeCount (Runner.run_stream ctx0 soracle8 agent8 t8 []).1 = 1 :=
  ⟨rfl, rfl⟩

theorem executeFuel_spec (ctx : CallCtx) (oracle : Nat → Except Exc RawModelMessage)
    (maxIter : Nat) :
    ∀ fuel (t : Tool) (is_sub : Bool) (rr r : RunResponse),
      fuel = maxIter - rr.iterations →
      rr.iterations ≤ maxIter →
      rr.max_iterations_reached = false →
      executeFuel ctx oracle maxIter fuel t is_sub rr = Except.ok r →
      (r.iterations ≤ maxIter ∧
        (r.max_iterations_reached = true ↔
          ∀ i, rr.iterations ≤ i → i < maxIter →
            ∃ raw, oracle i = Except.ok raw ∧ raw.tool_calls ≠ [])) := by
  intro fuel
  induction fuel with
  | zero =>
      intro t is_sub rr r hfe hle hflag h
      have hits : rr.iterations = maxIter := by omega
      simp only [executeFuel] at h
      rw [Except.ok.injEq] at h
      subst h
      refine ⟨by simpa using hle, ?_, ?_⟩
      · intro _ i h1 h2
        have h1b : rr.iterations ≤ i := h1
        exact absurd h2 (by omega)
      · intro _
        rfl
  | succ fuel ih =>
      intro t is_sub rr r hfe hle hflag h
      have hlt : rr.iterations < maxIter := by omega
      simp only [executeFuel] at h
      cases ho : oracle rr.iterations with
      | error e =>
          rw [ho] at h
          dsimp only at h
          cases h
      | ok raw =>
          rw [ho] at h
          dsimp only at h
          by_cases hemp : raw.tool_calls.isEmpty
          · rw [if_pos (show (parse_model_response raw).tool_calls.isEmpty = true
              from hemp)] at h
            rw [Except.ok.injEq] at h
            subst h
            refine ⟨?_, ?_, ?_⟩
            · exact (show rr.iterations + 1 ≤ maxIter by omega)
            · intro hfl
              have hfl2 : rr.max_iterations_reached = true := hfl
              rw [hflag] at hfl2
              cases hfl2
            · intro hRHS
              obtain ⟨raw2, ho2, hne2⟩ := hRHS rr.iterations le_rfl hlt
              rw [ho] at ho2
              rw [Except.ok.injEq] at ho2
              subst ho2
              rw [List.isEmpty_iff] at hemp
              exact absurd hemp hne2
          · rw [if_neg (show ¬(parse_model_response raw).tool_calls.isEmpty = true
              from hemp)] at h
            cases hdisp : Tool.tool_calls ctx t (parse_model_response raw).tool_calls
                (rr.result ++ [parse_model_response raw]) with
            | error e =>
                rw [hdisp] at h
                dsimp only at h
                cases h
            | ok trip =>
                obtain ⟨resps, t2, msgs2⟩ := trip
                rw [hdisp] at h
                dsimp only at h
                have hne : raw.tool_calls ≠ [] := by
                  intro hh
                  rw [hh] at hemp
                  exact hemp rfl
                obtain ⟨hbound, hiff⟩ := ih t2 is_sub
                  { result := msgs2 ++ List.map toolResponseMsg resps,
                    iterations := rr.iterations + 1,
                    sub_agent_result := (if is_sub = true then rr.sub_agent_result ++ [parse_model_response raw] else rr.sub_agent_result),
                    sub_agents_response := rr.sub_agents_response,
                    max_iterations_reached := rr.max_iterations_reached } r
                  (show fuel = maxIter - (rr.iterations + 1) by omega)
                  (show rr.iterations + 1 ≤ maxIter by omega)
                  hflag h
                refine ⟨hbound, hiff.trans ?_⟩
                constructor
                · intro hall i h1 h2
                  rcases Nat.lt_or_ge i (rr.iterations + 1) with hlow | hhigh
                  · have hieq : i = rr.iterations := by omega
                    subst hieq
                    exact ⟨raw, ho, hne⟩
                  · exact hall i hhigh h2
                · intro hall i h1 h2
                  have h1b : rr.iterations + 1 ≤ i := h1
                  exact hall i (by omega) h2

theorem streamChunks_events_shape :
    ∀ (chunks : List Chunk) (c : String) (tcs : List ToolCall),
      ∀ e ∈ (streamChunksGo chunks c tcs).1,
        (∃ s2, e = Event.content_chunk s2) ∨ ∃ l2, e = Event.tool_calls_update l2 := by
  intro chunks
  induction chunks with
  | nil =>
      intro c tcs e he
      simp [streamChunksGo] at he
  | cons ch rest ih =>
      intro c tcs e he
      rcases hc : ch.content with _ | s2
      · by_cases hte : ch.tool_calls.isEmpty
        · simp only [streamChunksGo, hc, hte, if_true, List.nil_append] at he
          exact ih _ _ e he
        · simp only [streamChunksGo, hc, hte, if_false, Bool.false_eq_true,
            List.nil_append, List.cons_append, List.mem_cons] at he
          rcases he with rfl | he
          · exact Or.inr ⟨_, rfl⟩
          · exact ih _ _ e he
      · by_cases hz : s2 = ""
        · by_cases hte : ch.tool_calls.isEmpty
          · simp only [streamChunksGo, hc, hz, hte, if_true, List.nil_append] at he
            exact ih _ _ e he
          · simp only [streamChunksGo, hc, hz, hte, if_true, if_false, Bool.false_eq_true,
              List.nil_append, List.cons_append, List.mem_cons] at he
            rcases he with rfl | he
            · exact Or.inr ⟨_, rfl⟩
            · exact ih _ _ e he
        · by_cases hte : ch.tool_calls.isEmpty
          · simp only [streamChunksGo, hc, hz, hte, if_true, if_false, Bool.false_eq_true,
              List.cons_append, List.nil_append, List.mem_cons] at he
            rcases he with rfl | he
            · exact Or.inl ⟨_, rfl⟩
            · exact ih _ _ e he
          · simp only [streamChunksGo, hc, hz, hte, if_false, Bool.false_eq_true,
              List.cons_append, List.nil_append, List.mem_cons] at he
            rcases he with rfl | (rfl | he)
            · exact Or.inl ⟨_, rfl⟩
            · exact Or.inr ⟨_, rfl⟩
            · exact ih _ _ e he

theorem get_model_stream_events_shape (chunks : List Chunk) :
    ∀ e ∈ (get_model_stream chunks).1,
      (∃ s2, e = Event.content_chunk s2) ∨ ∃ l2, e = Event.tool_calls_update l2 := by
  intro e he
  exact streamChunks_events_shape chunks "" [] e he

theorem runEndEvents_append (a b : List StreamAction) :
    runEndEvents (a ++ b) = runEndEvents a ++ runEndEvents b := by
  simp [runEndEvents, List.filterMap_append]

theorem runEndEvents_map_emit_shape (l : List Event)
    (h : ∀ e ∈ l, (∃ s2, e = Event.content_chunk s2) ∨ ∃ l2, e = Event.tool_calls_update l2) :
    runEndEvents (l.map StreamAction.emit) = [] := by
  induction l with
  | nil => rfl
  | cons e rest ih =>
      rcases h e (by simp) with ⟨s2, rfl⟩ | ⟨l2, rfl⟩
      · simpa [runEndEvents] using ih (fun e2 he2 => h e2 (List.mem_cons_of_mem _ he2))
      · simpa [runEndEvents] using ih (fun e2 he2 => h e2 (List.mem_cons_of_mem _ he2))

theorem runEndEvents_tool_responses (l : List ToolCallResponse) :
    runEndEvents (l.map (fun r => StreamAction.emit (Event.tool_response r))) = [] := by
  induction l with
  | nil => rfl
  | cons r rest ih => simp only [List.map_cons, runEndEvents, List.filterMap_cons]; exact ih

theorem streamFuel_runEnd_spec (ctx : CallCtx) (soracle : Nat → Except Exc (List Chunk))
    (maxIter : Nat) :
    ∀ fuel (t : Tool) (rr : RunResponse),
      fuel = maxIter - rr.iterations →
      rr.iterations ≤ maxIter →
      rr.max_iterations_reached = false →
      ∀ rs ∈ runEndEvents (streamFuel ctx soracle maxIter fuel t rr).1,
        (rs.iterations ≤ maxIter ∧
          (rs.max_iterations_reached = true ↔
            ∀ i, rr.iterations ≤ i → i < maxIter →
              ∃ chunks, soracle i = Except.ok chunks ∧
                (get_model_stream chunks).2.tool_calls ≠ [])) := by
  intro fuel
  induction fuel with
  | zero =>
      intro t rr hfe hle hflag rs hrs
      have hits : rr.iterations = maxIter := by omega
      simp only [streamFuel, runEndEvents, List.filterMap_cons, List.filterMap_nil,
        List.mem_cons, List.not_mem_nil, or_false] at hrs
      subst hrs
      refine ⟨by simpa using hle, ?_, ?_⟩
      · intro _ i h1 h2
        have h1b : rr.iterations ≤ i := h1
        exact absurd h2 (by omega)
      · intro _
        rfl
  | succ fuel ih =>
      intro t rr hfe hle hflag rs hrs
      have hlt : rr.iterations < maxIter := by omega
      simp only [streamFuel] at hrs
      cases ho : soracle rr.iterations with
      | error e =>
          rw [ho] at hrs
          dsimp only at hrs
          simp [runEndEvents] at hrs
      | ok chunks =>
          rw [ho] at hrs
          dsimp only at hrs
          by_cases hemp : (get_model_stream chunks).2.tool_calls.isEmpty
          · rw [if_pos hemp] at hrs
            simp only [runEndEvents_append] at hrs
            rw [runEndEvents_map_emit_shape _ (get_model_stream_events_shape chunks)] at hrs
            simp only [runEndEvents, List.filterMap_cons, List.filterMap_nil,
              List.append_nil, List.nil_append, List.mem_append, List.mem_cons,
              List.not_mem_nil, or_false, false_or] at hrs
            subst hrs
            refine ⟨?_, ?_, ?_⟩
            · exact (show rr.iterations + 1 ≤ maxIter by omega)
            · intro hfl
              have hfl2 : rr.max_iterations_reached = true := hfl
              rw [hflag] at hfl2
              cases hfl2
            · intro hRHS
              obtain ⟨chunks2, ho2, hne2⟩ := hRHS rr.iterations le_rfl hlt
              rw [ho] at ho2
              rw [Except.ok.injEq] at ho2
              subst ho2
              rw [List.isEmpty_iff] at hemp
              exact absurd hemp hne2
          · rw [if_neg hemp] at hrs
            cases hdisp : Tool.tool_calls ctx t (get_model_stream chunks).2.tool_calls
                (rr.result ++ [(get_model_stream chunks).2.message]) with
            | error e =>
                rw [hdisp] at hrs
                dsimp only at hrs
                simp only [runEndEvents_append] at hrs
                rw [runEndEvents_map_emit_shape _ (get_model_stream_events_shape chunks)]
                  at hrs
                simp [runEndEvents] at hrs
            | ok trip =>
                obtain ⟨resps, t2, msgs2⟩ := trip
                rw [hdisp] at hrs
                dsimp only at hrs
                simp only [runEndEvents_append] at hrs
                rw [runEndEvents_map_emit_shape _ (get_model_stream_events_shape chunks)]
                  at hrs
                rw [runEndEvents_tool_responses] at hrs
                simp only [runEndEvents, List.filterMap_cons, List.filterMap_nil,
                  List.append_nil, List.nil_append, List.mem_append, List.mem_cons,
                  List.not_mem_nil, or_false, false_or] at hrs
                have hne : (get_model_stream chunks).2.tool_calls ≠ [] := by
                  intro hh
                  rw [hh] at hemp
                  exact hemp rfl
                obtain ⟨hbound, hiff⟩ := ih t2
                  { result := msgs2 ++ resps.map toolResponseMsg,
                    iterations := rr.iterations + 1,
                    sub_agent_result := rr.sub_agent_result,
                    sub_agents_response := rr.sub_agents_response,
                    max_iterations_reached := rr.max_iterations_reached }
                  (show fuel = maxIter - (rr.iterations + 1) by omega)
                  (show rr.iterations + 1 ≤ maxIter by omega)
                  hflag rs hrs
                refine ⟨hbound, hiff.trans ?_⟩
                constructor
                · intro hall i h1 h2
                  rcases Nat.lt_or_ge i (rr.iterations + 1) with hlow | hhigh
                  · have hieq : i = rr.iterations := by omega
                    subst hieq
                    exact ⟨chunks, ho, hne⟩
                  · exact hall i hhigh h2
                · intro hall i h1 h2
                  have h1b : rr.iterations + 1 ≤ i := h1
                  exact hall i (by omega) h2

/-- C2: the blocking loop's final iteration count never exceeds the
agent's configured `max_iterations`, and its budget flag is true exactly
when every iteration within the budget produced tool calls — the counter
exit — never on the no-tool-calls exit; every run-end payload the
streaming loop emits satisfies the same bound and the same
characterization of its flag. -/
theorem C2_iterations_flag (ctx : CallCtx) (oracle : Nat → Except Exc RawModelMessage)
    (soracle : Nat → Except Exc (List Chunk)) (agent : Agent) (t t2 : Tool)
    (is_sub : Bool) (input input2 : List Msg) (r : RunResponse)
    (h : Runner.execute ctx oracle agent t is_sub input = Except.ok r) :
    (r.iterations ≤ agent.max_iterations ∧
      (r.max_iterations_reached = true ↔
        ∀ i, i < agent.max_iterations →
          ∃ raw, oracle i = Except.ok raw ∧ raw.tool_calls ≠ [])) ∧
    ∀ rs ∈ runEndEvents (Runner.stream_with_events ctx soracle agent t2 input2).1,
      rs.iterations ≤ agent.max_iterations ∧
      (rs.max_iterations_reached = true ↔
        ∀ i, i < agent.max_iterations →
          ∃ chunks, soracle i = Except.ok chunks ∧
            (get_model_stream chunks).2.tool_calls ≠ []) := by
  constructor
  · simp only [Runner.execute] at h
    obtain ⟨hbound, hiff⟩ := executeFuel_spec ctx oracle agent.max_iterations
      agent.max_iterations t is_sub _ r
      (show agent.max_iterations = agent.max_iterations - 0 by omega)
      (show (0 : Nat) ≤ agent.max_iterations by omega) rfl h
    refine ⟨hbound, hiff.trans ?_⟩
    constructor
    · intro hall i h2
      exact hall i (Nat.zero_le i) h2
    · intro hall i _ h2
      exact hall i h2
  · intro rs hrs
    simp only [Runner.stream_with_events] at hrs
    obtain ⟨hbound, hiff⟩ := streamFuel_runEnd_spec ctx soracle agent.max_iterations
      agent.max_iterations t2 _
      (show agent.max_iterations = agent.max_iterations - 0 by omega)
      (show (0 : Nat) ≤ agent.max_iterations by omega) rfl rs hrs
    refine ⟨hbound, hiff.trans ?_⟩
    constructor
    · intro hall i h2
      exact hall i (Nat.zero_le i) h2
    · intro hall i _ h2
      exact hall i h2

/-- Model oracle fixture: every blocking iteration answers with content
and no tool calls. -/
def oracle2 : Nat → Except Exc RawModelMessage := fun _ => Except.ok ⟨"done", []⟩

/-- Streaming oracle fixture: every iteration streams no chunks. -/
def soracle2 : Nat → Except Exc (List Chunk) := fun _ => Except.ok []

theorem C2_witness :
    (RunResponse.iterations
        ⟨[⟨some "assistant", some (PyObj.str "done"), [], Option.none⟩], 1, [], [], false⟩ ≤
        agent8.max_iterations ∧
      (RunResponse.max_iterations_reached
          ⟨[⟨some "assistant", some (PyObj.str "done"), [], Option.none⟩], 1, [], [], false⟩ =
          true ↔
        ∀ i, i < agent8.max_iterations →
          ∃ raw, oracle2 i = Except.ok raw ∧ raw.tool_calls ≠ [])) ∧
    ∀ rs ∈ runEndEvents (Runner.stream_with_events ctx0 soracle2 agent8 t1none []).1,
      rs.iterations ≤ agent8.max_iterations ∧
      (rs.max_iterations_reached = true ↔
        ∀ i, i < agent8.max_iterations →
          ∃ chunks, soracle2 i = Except.ok chunks ∧
            (get_model_stream chunks).2.tool_calls ≠ []) :=
  C2_iterations_flag ctx0 oracle2 soracle2 agent8 t1none t1none false [] []
    ⟨[⟨some "assistant", some (PyObj.str "done"), [], Option.none⟩], 1, [], [], false⟩ rfl

theorem modifyAt_length {α : Type} (l : List α) (n : Nat) (f : α → α) :
    (modifyAt l n f).length = l.length := by
  induction l generalizing n with
  | nil => cases n <;> rfl
  | cons x xs ih =>
      cases n with
      | zero => rfl
      | succ n => simp [modifyAt, ih]

theorem applyDelta_ne_nil (acc : List ToolCall) (d : DeltaToolCall) :
    applyDelta acc d ≠ [] := by
  unfold applyDelta
  by_cases hle : acc.length ≤ d.index
  · rw [if_pos hle]
    simp
  · rw [if_neg hle]
    cases harg : d.function.arguments with
    | none =>
        intro hh
        dsimp only at hh
        rw [hh] at hle
        exact hle (Nat.zero_le _)
    | some a =>
        intro hh
        dsimp only at hh
        have hlen := congrArg List.length hh
        rw [modifyAt_length] at hlen
        simp only [List.length_nil] at hlen
        rw [List.length_eq_zero] at hlen
        rw [hlen] at hle
        exact hle (Nat.zero_le _)

theorem foldl_applyDelta_ne_nil (ds : List DeltaToolCall) (acc : List ToolCall)
    (h : acc ≠ [] ∨ ds ≠ []) : List.foldl applyDelta acc ds ≠ [] := by
  induction ds generalizing acc with
  | nil =>
      rcases h with h | h
      · exact h
      · exact absurd rfl h
  | cons d rest ih =>
      exact ih (applyDelta acc d) (Or.inl (applyDelta_ne_nil acc d))

theorem streamChunks_tc_mono :
    ∀ (chunks : List Chunk) (c : String) (tcs : List ToolCall), tcs ≠ [] →
      (streamChunksGo chunks c tcs).2.2 ≠ [] := by
  intro chunks
  induction chunks with
  | nil =>
      intro c tcs h
      exact h
  | cons ch rest ih =>
      intro c tcs h
      rcases hc : ch.content with _ | s2
      · by_cases hte : ch.tool_calls.isEmpty
        · simp only [streamChunksGo, hc, hte, if_true]
          exact ih _ _ h
        · simp only [streamChunksGo, hc, hte, if_false, Bool.false_eq_true]
          exact ih _ _ (foldl_applyDelta_ne_nil _ _ (Or.inl h))
      · by_cases hz : s2 = ""
        · by_cases hte : ch.tool_calls.isEmpty
          · simp only [streamChunksGo, hc, hz, hte, if_true]
            exact ih _ _ h
          · simp only [streamChunksGo, hc, hz, hte, if_true, if_false, Bool.false_eq_true]
            exact ih _ _ (foldl_applyDelta_ne_nil _ _ (Or.inl h))
        · by_cases hte : ch.tool_calls.isEmpty
          · simp only [streamChunksGo, hc, hz, hte, if_true, if_false, Bool.false_eq_true]
            exact ih _ _ h
          · simp only [streamChunksGo, hc, hz, hte, if_false, Bool.false_eq_true]
            exact ih _ _ (foldl_applyDelta_ne_nil _ _ (Or.inl h))

theorem streamChunks_content_only :
    ∀ (chunks : List Chunk) (c : String) (tcs : List ToolCall),
      (streamChunksGo chunks c tcs).2.2 = [] →
      ∀ e ∈ (streamChunksGo chunks c tcs).1, ∃ s2, e = Event.content_chunk s2 := by
  intro chunks
  induction chunks with
  | nil =>
      intro c tcs hnil e he
      simp [streamChunksGo] at he
  | cons ch rest ih =>
      intro c tcs hnil e he
      by_cases hte : ch.tool_calls.isEmpty
      · rcases hc : ch.content with _ | s2
        · simp only [streamChunksGo, hc, hte, if_true, List.nil_append] at he hnil
          exact ih _ _ hnil e he
        · by_cases hz : s2 = ""
          · simp only [streamChunksGo, hc, hz, hte, if_true, List.nil_append] at he hnil
            exact ih _ _ hnil e he
          · simp only [streamChunksGo, hc, hz, hte, if_true, if_false, Bool.false_eq_true,
              List.cons_append, List.nil_append, List.mem_cons] at he hnil
            rcases he with rfl | he
            · exact ⟨_, rfl⟩
            · exact ih _ _ hnil e he
      · exfalso
        have hfold : ch.tool_calls ≠ [] := by
          intro hh
          rw [hh] at hte
          exact hte rfl
        rcases hc : ch.content with _ | s2
        · simp only [streamChunksGo, hc, hte, if_false, Bool.false_eq_true] at hnil
          exact streamChunks_tc_mono rest _ _
            (foldl_applyDelta_ne_nil _ _ (Or.inr hfold)) hnil
        · by_cases hz : s2 = ""
          · simp only [streamChunksGo, hc, hz, hte, if_true, if_false,
              Bool.false_eq_true] at hnil
            exact streamChunks_tc_mono rest _ _
              (foldl_applyDelta_ne_nil _ _ (Or.inr hfold)) hnil
          · simp only [streamChunksGo, hc, hz, hte, if_false, Bool.false_eq_true] at hnil
            exact streamChunks_tc_mono rest _ _
              (foldl_applyDelta_ne_nil _ _ (Or.inr hfold)) hnil

theorem emitsOf_nil : emitsOf [] = [] := rfl

theorem emitsOf_cons_emit (e : Event) (l : List StreamAction) :
    emitsOf (StreamAction.emit e :: l) = e :: emitsOf l := rfl

theorem emitsOf_cons_close (l : List StreamAction) :
    emitsOf (StreamAction.closeAll :: l) = emitsOf l := rfl

theorem emitsOf_append (a b : List StreamAction) :
    emitsOf (a ++ b) = emitsOf a ++ emitsOf b := by
  simp [emitsOf, List.filterMap_append]

theorem emitsOf_map_emit (l : List Event) :
    emitsOf (l.map StreamAction.emit) = l := by
  induction l with
  | nil => rfl
  | cons e rest ih =>
      rw [List.map_cons, emitsOf_cons_emit, ih]

/-- C9: a streaming run whose first model response carries no tool calls
emits exactly one iteration-start event carrying 1, then zero or more
content-chunk events, then one iteration-end event, then one run-end event
carrying the complete run result, and nothing else. -/
theorem C9_stream_sequence (ctx : CallCtx) (soracle : Nat → Except Exc (List Chunk))
    (agent : Agent) (t : Tool) (input : List Msg) (chunks : List Chunk)
    (h1 : soracle 0 = Except.ok chunks)
    (h2 : (get_model_stream chunks).2.tool_calls = [])
    (h3 : 1 ≤ agent.max_iterations) :
    emitsOf (Runner.run_stream ctx soracle agent t input).1 =
      Event.iteration_start 1 :: ((get_model_stream chunks).1 ++
        [Event.iteration_end ⟨1, false⟩,
         Event.agent_run_end
           { result := set_agent_instructions input agent.instructions ++
               [(get_model_stream chunks).2.message],
             iterations := 1, sub_agent_result := [],
             sub_agents_response := t.sub_agents_response,
             max_iterations_reached := false }]) ∧
    ∀ e ∈ (get_model_stream chunks).1, ∃ s2, e = Event.content_chunk s2 := by
  obtain ⟨f, hM⟩ : ∃ f, agent.max_iterations = f + 1 :=
    ⟨agent.max_iterations - 1, by omega⟩
  have hemp : (get_model_stream chunks).2.tool_calls.isEmpty = true := by
    rw [h2]
    rfl
  have hsw : Runner.stream_with_events ctx soracle agent t input =
      (StreamAction.emit (Event.iteration_start 1) ::
        (List.map StreamAction.emit (get_model_stream chunks).1 ++
          [StreamAction.emit (Event.iteration_end ⟨1, false⟩),
           StreamAction.closeAll,
           StreamAction.emit (Event.agent_run_end
             { result := set_agent_instructions input agent.instructions ++
                 [(get_model_stream chunks).2.message],
               iterations := 1, sub_agent_result := [],
               sub_agents_response := t.sub_agents_response,
               max_iterations_reached := false })]),
       Option.none) := by
    simp [Runner.stream_with_events, hM, streamFuel, h1, hemp]
  constructor
  · simp only [Runner.run_stream, hsw]
    rw [emitsOf_cons_emit, emitsOf_append, emitsOf_map_emit, emitsOf_cons_emit,
      emitsOf_cons_close, emitsOf_cons_emit, emitsOf_nil]
  · intro e he
    exact streamChunks_content_only chunks "" [] h2 e he

/-- Streaming oracle fixture: one content chunk and no tool calls. -/
def soracle9 : Nat → Except Exc (List Chunk) := fun _ => Except.ok [⟨some "hi", []⟩]

/-- Chunk list fixture for the tool-free streamed iteration. -/
def chunks9 : List Chunk := [⟨some "hi", []⟩]

theorem C9_witness :
    emitsOf (Runner.run_stream ctx0 soracle9 agent8 t1none []).1 =
      Event.iteration_start 1 :: ((get_model_stream chunks9).1 ++
        [Event.iteration_end ⟨1, false⟩,
         Event.agent_run_end
           { result := set_agent_instructions [] agent8.instructions ++
               [(get_model_stream chunks9).2.message],
             iterations := 1, sub_agent_result := [],
             sub_agents_response := t1none.sub_agents_response,
             max_iterations_reached := false }]) ∧
    ∀ e ∈ (get_model_stream chunks9).1, ∃ s2, e = Event.content_chunk s2 :=
  C9_stream_sequence ctx0 soracle9 agent8 t1none [] chunks9 rfl rfl (by decide)

end Stark
